import Mathlib

/-!
# Verification of the nurse-rostering core (`src/model.py`)

Shallow embedding of `solve_nurse_rostering` and `validate_schedule` from
`src/groupe-01-optimisation-planning-infirmiers/src/model.py`.

Modelling conventions:
* Python `dict` values keyed by shift name become association lists
  `List (String × Int)`; `demand[d][s]` becomes a fallible lookup
  (`IndexError` when `d` is out of range, `KeyError` when the key is absent),
  mirroring the exceptions the Python code can raise.
* The CP-SAT solver is the external "solving oracle": it is a parameter
  `oracle : BuiltModel → OracleResult` supplying a status and a 0/1 value for
  every decision variable `x(n,d,s)` (a total function
  `Nat → Nat → String → Bool`).
* Violation strings built with f-strings in the source become the structured
  inductive `Violation`; each constructor carries exactly the data interpolated
  into the corresponding f-string (`[SYMBOL]`, `[COVER]`, `[OFF]`, `[CONSEC]`,
  `[REST]`, `[NIGHTS]`).
* Python `int` values coming from the configuration or the demand table are
  modelled as `Int`; loop counters and indices are `Nat` (Python indices in
  this code are always non-negative: preference keys with a negative
  component are skipped by the `0 <= n < num_nurses` guard, so restricting
  keys to `Nat` drops only entries the source ignores).
* Ragged schedule rows (rows shorter than `len(schedule[0])`) would raise
  `IndexError` in Python; cell access is totalised with a default here and the
  theorems about `validate_schedule` carry a rectangularity hypothesis where
  row length matters.
-/

/-- `RosteringConfig` dataclass (model.py lines 14-25).
`max_consecutive_work_days` is declared `int = 5` in the source but guarded by
`L is not None`, i.e. treated as optional, hence `Option Int` here. -/
structure RosteringConfig where
  shifts : List String := ["M", "A", "N"]
  min_days_off : Int := 1
  max_consecutive_work_days : Option Int := some 5
  max_nights_per_nurse : Int := 3
  rest_after_night : Bool := true
  w_preference : Int := 10
  w_balance : Int := 3
  w_night_balance : Int := 2
deriving DecidableEq, Repr

/-- One entry of the `preferences` dict: a Python dict read with
`pref.get("type")` / `pref.get("shift")`, both possibly absent. -/
structure PrefEntry where
  type : Option String := none
  shift : Option String := none
deriving DecidableEq, Repr

/-- Structured form of the violation message strings appended by
`validate_schedule` (model.py lines 247-303); each constructor carries the
data interpolated into the corresponding f-string. -/
inductive Violation where
  | symbol (nurse day : Nat) (sym : String)
  | cover (day : Nat) (shift : String) (got : Nat) (need : Int)
  | off (nurse : Nat) (offDays minOff : Int)
  | consec (nurse : Nat) (limit : Int) (day : Nat)
  | rest (nurse day : Nat) (next : String)
  | nights (nurse : Nat) (count maxN : Int)
deriving DecidableEq, Repr

/-- The Python exceptions the embedded code can raise. -/
inductive PyError where
  | valueError (msg : String)
  | keyError (key : String)
  | indexError (idx : Nat)
deriving DecidableEq, Repr

instance {ε α : Type} [DecidableEq ε] [DecidableEq α] :
    DecidableEq (Except ε α) := fun a b =>
  match a, b with
  | .ok x, .ok y =>
    match decEq x y with
    | .isTrue h => .isTrue (by rw [h])
    | .isFalse h => .isFalse (by intro hc; cases hc; exact h rfl)
  | .ok _, .error _ => .isFalse (by intro hc; cases hc)
  | .error _, .ok _ => .isFalse (by intro hc; cases hc)
  | .error x, .error y =>
    match decEq x y with
    | .isTrue h => .isTrue (by rw [h])
    | .isFalse h => .isFalse (by intro hc; cases hc; exact h rfl)

/-! ## The schedule validator (`validate_schedule`, model.py lines 237-305) -/

/-- `schedule[n][d]` (totalised; see header note on ragged rows). -/
def cellD (schedule : List (List String)) (n d : Nat) : String :=
  (schedule.getD n []).getD d ""

/-- `num_days = len(schedule[0]) if num_nurses > 0 else 0` (line 245):
`getD 0 []` returns the first row when the schedule is non-empty and `[]`
otherwise, so its length is exactly the Python expression. -/
def scheduleDays (schedule : List (List String)) : Nat :=
  (schedule.getD 0 []).length

/-- `allowed = set(shifts + ["OFF"])` (line 250); membership in the list is
the same predicate as membership in the Python set. -/
def allowedSymbols (shifts : List String) : List String :=
  shifts ++ ["OFF"]

/-- `works(n, d)` helper (lines 267-268), as a Bool. -/
def worksB (schedule : List (List String)) (n d : Nat) : Bool :=
  cellD schedule n d != "OFF"

/-- `counts[s]` for day `d` (lines 258-261): the number of nurses whose cell
on day `d` equals `s`.  (The source increments only when the cell is in
`shifts`, but `counts[s]` is only read for `s ∈ shifts`, where the membership
test is implied by equality with `s`.) -/
def countShift (schedule : List (List String)) (numNurses d : Nat)
    (s : String) : Nat :=
  (List.range numNurses).countP (fun n => cellD schedule n d == s)

/-- `int(demand[d][s])`: `IndexError` when `d` is out of range, `KeyError`
when shift `s` is missing from the day's dict. -/
def demandLookup (demand : List (List (String × Int))) (d : Nat)
    (s : String) : Except PyError Int :=
  if d < demand.length then
    match (demand.getD d []).lookup s with
    | some v => .ok v
    | none => .error (.keyError s)
  else .error (.indexError d)

/-- Inner loop of the coverage check (lines 262-264): for each `s` in
`shifts`, in order, compare `counts[s]` with `demand[d][s]`. -/
def coverShifts (schedule : List (List String))
    (demand : List (List (String × Int))) (numNurses d : Nat) :
    List String → Except PyError (List Violation)
  | [] => .ok []
  | s :: ss => do
    let req ← demandLookup demand d s
    let restV ← coverShifts schedule demand numNurses d ss
    let c := countShift schedule numNurses d s
    pure ((if (c : Int) ≠ req then [Violation.cover d s c req] else []) ++ restV)

/-- Outer loop of the coverage check (lines 256-264), over the listed days. -/
def coverDays (schedule : List (List String))
    (demand : List (List (String × Int))) (numNurses : Nat)
    (shifts : List String) : List Nat → Except PyError (List Violation)
  | [] => .ok []
  | d :: ds => do
    let v ← coverShifts schedule demand numNurses d shifts
    let restV ← coverDays schedule demand numNurses shifts ds
    pure (v ++ restV)

/-- Symbol check (lines 249-254). -/
def symbolViols (schedule : List (List String)) (shifts : List String)
    (numNurses numDays : Nat) : List Violation :=
  (List.range numNurses).flatMap (fun n =>
    (List.range numDays).filterMap (fun d =>
      if cellD schedule n d ∈ allowedSymbols shifts then none
      else some (Violation.symbol n d (cellD schedule n d))))

/-- Min-days-off check (lines 270-276). -/
def offViols (schedule : List (List String)) (cfg : RosteringConfig)
    (numNurses numDays : Nat) : List Violation :=
  if 0 < cfg.min_days_off then
    (List.range numNurses).filterMap (fun n =>
      let totalWork := (List.range numDays).countP (fun d => worksB schedule n d)
      let off : Int := (numDays : Int) - totalWork
      if off < cfg.min_days_off then
        some (Violation.off n off cfg.min_days_off)
      else none)
  else []

/-- The per-nurse consecutive-days scan (lines 282-290): walk the days with a
running `consec` counter, report the first day on which `consec` exceeds `L`
and stop (`break`).  `rem` is the number of days still to scan, `d` the
current day, `c` the current counter. -/
def consecGo (w : Nat → Bool) (L : Int) : Nat → Nat → Nat → Option Nat
  | 0, _, _ => none
  | rem + 1, d, c =>
    if w d then
      if (c + 1 : Int) > L then some d
      else consecGo w L rem (d + 1) (c + 1)
    else consecGo w L rem (d + 1) 0

/-- Max-consecutive-work-days check (lines 278-290). -/
def consecViols (schedule : List (List String)) (cfg : RosteringConfig)
    (numNurses numDays : Nat) : List Violation :=
  match cfg.max_consecutive_work_days with
  | none => []
  | some L =>
    if 0 < L ∧ L + 1 ≤ (numDays : Int) then
      (List.range numNurses).filterMap (fun n =>
        (consecGo (worksB schedule n) L numDays 0 0).map
          (fun d => Violation.consec n L d))
    else []

/-- Rest-after-night check (lines 292-297). -/
def restViols (schedule : List (List String)) (cfg : RosteringConfig)
    (numNurses numDays : Nat) : List Violation :=
  if cfg.rest_after_night = true ∧ 2 ≤ numDays then
    (List.range numNurses).flatMap (fun n =>
      (List.range (numDays - 1)).filterMap (fun d =>
        if cellD schedule n d = "N" ∧ cellD schedule n (d + 1) ≠ "OFF" then
          some (Violation.rest n d (cellD schedule n (d + 1)))
        else none))
  else []

/-- Max-nights check (lines 299-303). -/
def nightsViols (schedule : List (List String)) (cfg : RosteringConfig)
    (numNurses numDays : Nat) : List Violation :=
  (List.range numNurses).filterMap (fun n =>
    let k := (List.range numDays).countP (fun d => cellD schedule n d == "N")
    if (k : Int) > cfg.max_nights_per_nurse then
      some (Violation.nights n k cfg.max_nights_per_nurse)
    else none)

/-- `validate_schedule` (model.py lines 237-305).  The six checks run in
source order; only the coverage check touches `demand` and can raise, in
which case the whole call raises (violations gathered before the raise are
discarded, exactly as a Python exception discards the local `viol` list). -/
def validate_schedule (schedule : List (List String))
    (demand : List (List (String × Int))) (cfg : RosteringConfig) :
    Except PyError (List Violation) := do
  let numNurses := schedule.length
  let numDays := scheduleDays schedule
  let cov ← coverDays schedule demand numNurses cfg.shifts (List.range numDays)
  pure (symbolViols schedule cfg.shifts numNurses numDays ++ cov ++
    offViols schedule cfg numNurses numDays ++
    consecViols schedule cfg numNurses numDays ++
    restViols schedule cfg numNurses numDays ++
    nightsViols schedule cfg numNurses numDays)

/-! ## The solving pipeline (`solve_nurse_rostering`, model.py lines 37-234) -/

/-- CP-SAT solver status (the statuses the source distinguishes). -/
inductive CpStatus where
  | optimal
  | feasible
  | infeasible
  | unknown
  | modelInvalid
deriving DecidableEq, Repr, BEq

/-- `solver.StatusName(status)`. -/
def statusName : CpStatus → String
  | .optimal => "OPTIMAL"
  | .feasible => "FEASIBLE"
  | .infeasible => "INFEASIBLE"
  | .unknown => "UNKNOWN"
  | .modelInvalid => "MODEL_INVALID"

/-- One penalty term added to the objective for a recognized preference
entry (model.py lines 135-149), recording which linear constraint defines
the `pen` variable. -/
inductive PenaltyTerm where
  | preferOff (nurse day : Nat)
  | preferShift (nurse day : Nat) (shift : String)
  | avoidOff (nurse day : Nat)
  | avoidShift (nurse day : Nat) (shift : String)
deriving DecidableEq, Repr

/-- The CP model handed to the solving oracle.  The decision variables
`x(n,d,s)` / `work(n,d)` / totals / spreads and the hard constraints are
fully determined by `numNurses`, `numDays`, `shifts`, `demand` and `config`;
the only preference-dependent parts are the `pref_pen_n{n}_d{d}` variables
created (model.py line 133) and the penalty terms entering the objective
(lines 135-153, 183-189), recorded here explicitly. -/
structure BuiltModel where
  numNurses : Nat
  numDays : Nat
  shifts : List String
  demand : List (List (String × Int))
  config : RosteringConfig
  penVars : List (Nat × Nat)
  penalties : List PenaltyTerm
deriving DecidableEq, Repr

/-- What the solving oracle returns for a model: a status, a 0/1 value for
every `x(n,d,s)` variable, the achieved objective, and the run statistics
the source copies into `stats`. -/
structure OracleResult where
  status : CpStatus
  value : Nat → Nat → String → Bool
  objectiveValue : Int
  wallTime : String
  branches : Nat
  conflicts : Nat

/-- `SolveResult` dataclass (model.py lines 28-34).  `objective_value` is a
Python float there; CP-SAT objectives with integer coefficients are
integral, so it is carried as the oracle's integer objective. -/
structure SolveResult where
  feasible : Bool
  schedule : Option (List (List String))
  objective_value : Option Int
  stats : List (String × String)
  violations : List Violation
deriving DecidableEq, Repr

/-- The pen-variable creations caused by one preference entry
(model.py lines 122-133): reached only for in-range `(n, d)` and a `shift`
value that is a configured shift or `"OFF"`; the variable is created before
the `type` field is examined. -/
def penVarsOfEntry (numNurses numDays : Nat) (shifts : List String)
    (e : (Nat × Nat) × PrefEntry) : List (Nat × Nat) :=
  if e.1.1 < numNurses ∧ e.1.2 < numDays then
    match e.2.shift with
    | some s => if s ∈ shifts ∨ s = "OFF" then [(e.1.1, e.1.2)] else []
    | none => []
  else []

/-- The penalty terms caused by one preference entry (model.py
lines 122-153): unrecognized `type` values fall through to `continue`
without appending. -/
def penaltiesOfEntry (numNurses numDays : Nat) (shifts : List String)
    (e : (Nat × Nat) × PrefEntry) : List PenaltyTerm :=
  if e.1.1 < numNurses ∧ e.1.2 < numDays then
    match e.2.shift with
    | some s =>
      if s ∈ shifts ∨ s = "OFF" then
        match e.2.type with
        | some t =>
          if t = "prefer" then
            [if s = "OFF" then PenaltyTerm.preferOff e.1.1 e.1.2
             else PenaltyTerm.preferShift e.1.1 e.1.2 s]
          else if t = "avoid" then
            [if s = "OFF" then PenaltyTerm.avoidOff e.1.1 e.1.2
             else PenaltyTerm.avoidShift e.1.1 e.1.2 s]
          else []
        | none => []
      else []
    | none => []
  else []

/-- Model construction (model.py lines 69-189), after the input checks and
the `x[(n, d, "N")]` lookups have succeeded.  The preference loop visits the
dict entries in insertion order, which the association list preserves. -/
def buildModel (numNurses numDays : Nat)
    (demand : List (List (String × Int))) (cfg : RosteringConfig)
    (preferences : List ((Nat × Nat) × PrefEntry)) : BuiltModel :=
  { numNurses := numNurses
    numDays := numDays
    shifts := cfg.shifts
    demand := demand
    config := cfg
    penVars := preferences.flatMap (penVarsOfEntry numNurses numDays cfg.shifts)
    penalties := preferences.flatMap (penaltiesOfEntry numNurses numDays cfg.shifts) }

/-- The input-check loop (model.py lines 64-67): the first `(d, s)` in scan
order with `s not in demand[d]`, if any. -/
def firstMissingShift (demand : List (List (String × Int)))
    (shifts : List String) (numDays : Nat) : Option (Nat × String) :=
  (List.range numDays).findSome? (fun d =>
    ((shifts.find? (fun s => ((demand.getD d []).lookup s).isNone)).map
      (fun s => (d, s))))

/-- Decoding one cell of the solved schedule (model.py lines 207-212):
the first shift in `shifts` whose variable is 1, else `"OFF"`. -/
def decodeCell (value : Nat → Nat → String → Bool) (shifts : List String)
    (n d : Nat) : String :=
  (shifts.find? (fun s => value n d s)).getD "OFF"

/-- Decoding the full grid (model.py lines 204-212). -/
def decodeSchedule (value : Nat → Nat → String → Bool)
    (shifts : List String) (numNurses numDays : Nat) : List (List String) :=
  (List.range numNurses).map (fun n =>
    (List.range numDays).map (fun d => decodeCell value shifts n d))

/-- The `stats` dict (model.py lines 220-226). -/
def mkStats (res : OracleResult) (feasible : Bool) : List (String × String) :=
  [("status", statusName res.status),
   ("objective", if feasible then toString res.objectiveValue else "NA"),
   ("wall_time_s", res.wallTime),
   ("branches", toString res.branches),
   ("conflicts", toString res.conflicts)]

/-- `solve_nurse_rostering` (model.py lines 37-234).

* Lines 62-67: input checks, raising `ValueError` before anything else.
* Lines 109-117 and 156-163 index `x[(n, d, "N")]`; when `"N"` is not a
  configured shift the first such lookup raises `KeyError("N")`.  The
  lookups are executed exactly when `num_nurses ≥ 1` and `num_days ≥ 1`
  (constraint 6 runs its inner sum for every nurse; constraint 5 only adds
  lookups in a subset of those situations), and they happen before the
  preference loop, so the failure condition is
  `"N" ∉ shifts ∧ 1 ≤ num_nurses ∧ 1 ≤ num_days`.
* The oracle is consulted exactly once, on the built model.
* On a feasible status the schedule is decoded and re-validated; a
  validation exception would propagate (it cannot fire after the input
  checks, but the embedding keeps the propagation). -/
def solve_nurse_rostering (num_nurses num_days : Nat)
    (demand : List (List (String × Int)))
    (preferences : List ((Nat × Nat) × PrefEntry))
    (config : RosteringConfig) (oracle : BuiltModel → OracleResult) :
    Except PyError SolveResult :=
  let shifts := config.shifts
  if demand.length ≠ num_days then
    .error (.valueError "demand must have length num_days")
  else
    match firstMissingShift demand shifts num_days with
    | some (d, s) =>
      .error (.valueError ("demand[" ++ toString d ++ "] missing shift " ++ s))
    | none =>
      if "N" ∉ shifts ∧ 1 ≤ num_nurses ∧ 1 ≤ num_days then
        .error (.keyError "N")
      else
        let m := buildModel num_nurses num_days demand config preferences
        let res := oracle m
        let feasible : Bool := res.status == .optimal || res.status == .feasible
        if feasible then
          let schedule := decodeSchedule res.value shifts num_nurses num_days
          match validate_schedule schedule demand config with
          | .error e => .error e
          | .ok viols =>
            .ok { feasible := true
                  schedule := some schedule
                  objective_value := some res.objectiveValue
                  stats := mkStats res true
                  violations := viols }
        else
          .ok { feasible := false
                schedule := none
                objective_value := none
                stats := mkStats res false
                violations := [] }

/-! ## The six hard constraints (model.py lines 78-117) as predicates on an
assignment of the `x(n,d,s)` variables.

`work(n,d)` is a Boolean variable tied to `x` by `work == Σ_s x(n,d,s)`
(line 83), so in every satisfying assignment its value is the sum
`workSum`; the predicates below inline that definition.  Sums over `shifts`
iterate the configured list with multiplicity, exactly like the Python
generator expressions. -/

/-- `Σ_{s in shifts} x(n,d,s)` — the value forced onto `work[(n,d)]`. -/
abbrev workSum (a : Nat → Nat → String → Bool) (shifts : List String)
    (n d : Nat) : Nat :=
  shifts.countP (fun s => a n d s)

/-- `int(demand[d][s])` as read by constraint 2 (line 95), after the input
checks have guaranteed the lookup succeeds. -/
abbrev demandAt (demand : List (List (String × Int))) (d : Nat)
    (s : String) : Int :=
  ((demand.getD d []).lookup s).getD 0

/-- Hard constraint 1 (lines 87-90): at most one shift per day per nurse. -/
abbrev hcOneShift (numNurses numDays : Nat) (shifts : List String)
    (a : Nat → Nat → String → Bool) : Prop :=
  ∀ n < numNurses, ∀ d < numDays, workSum a shifts n d ≤ 1

/-- Hard constraint 2 (lines 92-95): exact coverage of demand. -/
abbrev hcCoverage (numNurses numDays : Nat) (shifts : List String)
    (demand : List (List (String × Int)))
    (a : Nat → Nat → String → Bool) : Prop :=
  ∀ d < numDays, ∀ s ∈ shifts,
    (((List.range numNurses).countP (fun n => a n d s) : Int) = demandAt demand d s)

/-- Hard constraint 3 (lines 97-100): min days off per nurse. -/
abbrev hcMinDaysOff (numNurses numDays : Nat) (shifts : List String)
    (cfg : RosteringConfig) (a : Nat → Nat → String → Bool) : Prop :=
  0 < cfg.min_days_off →
    ∀ n < numNurses,
      ((((List.range numDays).map (fun d => workSum a shifts n d)).sum : Int) ≤
        (numDays : Int) - cfg.min_days_off)

/-- Hard constraint 4 (lines 102-107): sliding-window cap on consecutive
working days.  `range(0, num_days - (L + 1) + 1)` is `start < numDays - L`
(with `L ≥ 1` and `numDays ≥ L + 1` both subtractions are exact). -/
abbrev hcMaxConsec (numNurses numDays : Nat) (shifts : List String)
    (cfg : RosteringConfig) (a : Nat → Nat → String → Bool) : Prop :=
  ∀ L ∈ cfg.max_consecutive_work_days.toList,
    0 < L → L + 1 ≤ (numDays : Int) →
      ∀ n < numNurses, ∀ start < numDays - L.toNat,
        ((((List.range (L.toNat + 1)).map
            (fun i => workSum a shifts n (start + i))).sum : Int) ≤ L)

/-- Hard constraint 5 (lines 109-113): rest after night. -/
abbrev hcRestAfterNight (numNurses numDays : Nat) (shifts : List String)
    (cfg : RosteringConfig) (a : Nat → Nat → String → Bool) : Prop :=
  cfg.rest_after_night = true → 2 ≤ numDays →
    ∀ n < numNurses, ∀ d < numDays - 1,
      ((if a n d "N" then (1 : Int) else 0) + workSum a shifts n (d + 1) ≤ 1)

/-- Hard constraint 6 (lines 115-117): cap on nights per nurse. -/
abbrev hcMaxNights (numNurses numDays : Nat)
    (cfg : RosteringConfig) (a : Nat → Nat → String → Bool) : Prop :=
  ∀ n < numNurses,
    (((List.range numDays).countP (fun d => a n d "N") : Int) ≤
      cfg.max_nights_per_nurse)

/-- Conjunction of the six hard constraints built by
`solve_nurse_rostering`. -/
abbrev hardConstraintsHold (numNurses numDays : Nat)
    (demand : List (List (String × Int))) (cfg : RosteringConfig)
    (a : Nat → Nat → String → Bool) : Prop :=
  hcOneShift numNurses numDays cfg.shifts a ∧
  hcCoverage numNurses numDays cfg.shifts demand a ∧
  hcMinDaysOff numNurses numDays cfg.shifts cfg a ∧
  hcMaxConsec numNurses numDays cfg.shifts cfg a ∧
  hcRestAfterNight numNurses numDays cfg.shifts cfg a ∧
  hcMaxNights numNurses numDays cfg a

/-- Day `d` "breaches" the consecutive-work cap `Ln` for work pattern `w`
when the `Ln + 1` days ending at `d` are all worked (which requires
`d ≥ Ln`): this is the condition under which the validator's running
counter exceeds the cap at day `d`. -/
def breachAt (w : Nat → Bool) (Ln d : Nat) : Prop :=
  Ln ≤ d ∧ ∀ i ≤ Ln, w (d - i) = true

instance (w : Nat → Bool) (Ln d : Nat) : Decidable (breachAt w Ln d) := by
  unfold breachAt
  exact instDecidableAnd

/-! ## Generic list helpers -/

theorem two_le_length_of_mem_ne {α : Type} {a b : α} {l : List α}
    (ha : a ∈ l) (hb : b ∈ l) (hne : a ≠ b) : 2 ≤ l.length := by
  match l with
  | [] => cases ha
  | [x] =>
    simp only [List.mem_singleton] at ha hb
    exact absurd (ha.trans hb.symm) hne
  | x :: y :: t => simp only [List.length_cons]; omega

theorem length_le_sum_map {α : Type} {f : α → Nat} {l : List α}
    (h : ∀ x ∈ l, 1 ≤ f x) : l.length ≤ (l.map f).sum := by
  induction l with
  | nil => simp
  | cons x xs ih =>
    have hx := h x (by simp)
    have hxs := ih (fun y hy => h y (List.mem_cons_of_mem _ hy))
    simp only [List.map_cons, List.sum_cons, List.length_cons]
    omega

theorem sum_map_eq_countP {α : Type} {f : α → Nat} {l : List α}
    (h : ∀ x ∈ l, f x ≤ 1) :
    (l.map f).sum = l.countP (fun x => f x == 1) := by
  induction l with
  | nil => simp
  | cons x xs ih =>
    have hx := h x (by simp)
    have hxs := ih (fun y hy => h y (List.mem_cons_of_mem _ hy))
    simp only [List.map_cons, List.sum_cons, List.countP_cons]
    interval_cases hfx : f x
    · simp [hxs]
    · simp [hxs, Nat.add_comm]

/-! ## Properties of the decoded schedule -/

theorem decodeCell_mem_or_off (a : Nat → Nat → String → Bool)
    (shifts : List String) (n d : Nat) :
    decodeCell a shifts n d ∈ shifts ∨ decodeCell a shifts n d = "OFF" := by
  unfold decodeCell
  cases hfind : shifts.find? (fun s => a n d s) with
  | none => right; rfl
  | some t => left; simpa using List.mem_of_find?_eq_some hfind

/-- Under the one-shift-per-day constraint, a decoded cell equals a
configured shift `s` exactly when `x(n,d,s) = 1`. -/
theorem decodeCell_eq_iff {a : Nat → Nat → String → Bool}
    {shifts : List String} {n d : Nat} {s : String}
    (hOFF : "OFF" ∉ shifts) (h1 : workSum a shifts n d ≤ 1)
    (hs : s ∈ shifts) :
    decodeCell a shifts n d = s ↔ a n d s = true := by
  unfold decodeCell
  constructor
  · intro h
    cases hfind : shifts.find? (fun t => a n d t) with
    | none =>
      rw [hfind] at h
      simp only [Option.getD_none] at h
      exact absurd (h ▸ hs) hOFF
    | some t =>
      rw [hfind] at h
      simp only [Option.getD_some] at h
      exact h ▸ List.find?_some hfind
  · intro ha
    cases hfind : shifts.find? (fun t => a n d t) with
    | none =>
      rw [List.find?_eq_none] at hfind
      exact absurd ha (by simpa using hfind s hs)
    | some t =>
      have ht : a n d t = true := List.find?_some hfind
      have htm : t ∈ shifts := List.mem_of_find?_eq_some hfind
      by_cases hts : t = s
      · simp [hts]
      · exfalso
        have h2 : 2 ≤ workSum a shifts n d := by
          have hsf : s ∈ shifts.filter (fun u => a n d u) :=
            List.mem_filter.mpr ⟨hs, ha⟩
          have htf : t ∈ shifts.filter (fun u => a n d u) :=
            List.mem_filter.mpr ⟨htm, ht⟩
          rw [workSum, List.countP_eq_length_filter]
          exact two_le_length_of_mem_ne htf hsf hts
        omega

/-- Without the OFF-in-shifts anomaly, a decoded cell is worked exactly when
some shift variable is set, i.e. when `work(n,d) ≥ 1`. -/
theorem decodeCell_ne_off_iff {a : Nat → Nat → String → Bool}
    {shifts : List String} {n d : Nat} (hOFF : "OFF" ∉ shifts) :
    decodeCell a shifts n d ≠ "OFF" ↔ 1 ≤ workSum a shifts n d := by
  unfold decodeCell
  cases hfind : shifts.find? (fun s => a n d s) with
  | none =>
    rw [List.find?_eq_none] at hfind
    simp only [Option.getD_none, ne_eq, not_true_eq_false, false_iff]
    intro hw
    rcases List.countP_pos_iff.mp (Nat.lt_of_lt_of_le Nat.zero_lt_one hw) with
      ⟨s, hsm, hsa⟩
    exact absurd hsa (by simpa using hfind s hsm)
  | some t =>
    have ht : a n d t = true := List.find?_some hfind
    have htm : t ∈ shifts := List.mem_of_find?_eq_some hfind
    simp only [Option.getD_some]
    constructor
    · intro _
      exact List.countP_pos_iff.mpr ⟨t, htm, ht⟩
    · intro _ h
      exact hOFF (h ▸ htm)

theorem length_decodeSchedule (a : Nat → Nat → String → Bool)
    (shifts : List String) (numNurses numDays : Nat) :
    (decodeSchedule a shifts numNurses numDays).length = numNurses := by
  simp [decodeSchedule]

theorem row_decodeSchedule {a : Nat → Nat → String → Bool}
    {shifts : List String} {numNurses numDays : Nat} {row : List String}
    (h : row ∈ decodeSchedule a shifts numNurses numDays) :
    row.length = numDays := by
  rcases List.mem_map.mp h with ⟨n, _, rfl⟩
  simp

theorem scheduleDays_decodeSchedule (a : Nat → Nat → String → Bool)
    (shifts : List String) {numNurses : Nat} (numDays : Nat)
    (h : 1 ≤ numNurses) :
    scheduleDays (decodeSchedule a shifts numNurses numDays) = numDays := by
  unfold scheduleDays decodeSchedule
  rw [List.getD_eq_getElem?_getD, List.getElem?_map, List.getElem?_range h]
  simp

theorem cellD_decodeSchedule {a : Nat → Nat → String → Bool}
    {shifts : List String} {numNurses numDays n d : Nat}
    (hn : n < numNurses) (hd : d < numDays) :
    cellD (decodeSchedule a shifts numNurses numDays) n d
      = decodeCell a shifts n d := by
  unfold cellD decodeSchedule
  simp [List.getD_eq_getElem?_getD, List.getElem?_map, List.getElem?_range hn,
    List.getElem?_range hd]

/-! ## Characterizing the consecutive-days scan -/

/-- Invariant-carrying characterization of `consecGo`: starting at day `d`
with counter `c` (the length of the maximal working run ending just before
`d`), and no breach before `d`, the scan returns exactly the least breach
day, provided it lies within the remaining `rem` days. -/
theorem consecGo_some_iff {w : Nat → Bool} {L : Int} (hL : 0 < L) :
    ∀ (rem d c : Nat), c ≤ d → c ≤ L.toNat →
      (∀ i < c, w (d - 1 - i) = true) →
      (c = d ∨ w (d - c - 1) = false) →
      (∀ e < d, ¬ breachAt w L.toNat e) →
      ∀ d', (consecGo w L rem d c = some d' ↔
        (d' < d + rem ∧ breachAt w L.toNat d' ∧
          ∀ e < d', ¬ breachAt w L.toNat e)) := by
  intro rem
  induction rem with
  | zero =>
    intro d c _ _ _ _ hnb d'
    simp only [consecGo, Nat.add_zero]
    constructor
    · intro h; cases h
    · rintro ⟨hlt, hbr, _⟩
      exact absurd hbr (hnb d' hlt)
  | succ rem ih =>
    intro d c hcd hcL hrun hmax hnb d'
    have hLn : (L.toNat : Int) = L := Int.toNat_of_nonneg (le_of_lt hL)
    by_cases hwd : w d = true
    · by_cases hbreak : (c + 1 : Int) > L
      · -- counter exceeds the cap at day d: report d and stop
        have hcLn : L.toNat ≤ c := by omega
        have hc : c = L.toNat := le_antisymm hcL hcLn
        have hbrd : breachAt w L.toNat d := by
          refine ⟨hc ▸ hcd, fun i hi => ?_⟩
          rcases Nat.eq_zero_or_pos i with rfl | hip
          · simpa using hwd
          · have h1 : i - 1 < c := by omega
            have := hrun (i - 1) h1
            have harith : d - 1 - (i - 1) = d - i := by omega
            rwa [harith] at this
        have hres : consecGo w L (rem + 1) d c = some d := by
          simp only [consecGo, hwd, if_true, hbreak, if_pos]
        rw [hres]
        constructor
        · rintro ⟨rfl⟩
          exact ⟨by omega, hbrd, hnb⟩
        · rintro ⟨hlt, hbr, hmin⟩
          rcases Nat.lt_trichotomy d' d with h | h | h
          · exact absurd hbr (hnb d' h)
          · exact congrArg some h.symm
          · exact absurd hbrd (hmin d h)
      · -- counter still within the cap: keep scanning
        have hcLn : c + 1 ≤ L.toNat := by omega
        have hres : consecGo w L (rem + 1) d c
            = consecGo w L rem (d + 1) (c + 1) := by
          simp only [consecGo, hwd, if_true, hbreak, if_neg, ite_false]
        rw [hres]
        have hrun' : ∀ i < c + 1, w (d + 1 - 1 - i) = true := by
          intro i hi
          rcases Nat.eq_zero_or_pos i with rfl | hip
          · simpa using hwd
          · have h1 : i - 1 < c := by omega
            have := hrun (i - 1) h1
            have harith : d - 1 - (i - 1) = d + 1 - 1 - i := by omega
            rwa [harith] at this
        have hmax' : c + 1 = d + 1 ∨ w (d + 1 - (c + 1) - 1) = false := by
          rcases hmax with h | h
          · exact Or.inl (by omega)
          · refine Or.inr ?_
            have harith : d + 1 - (c + 1) - 1 = d - c - 1 := by omega
            rwa [harith]
        have hnb' : ∀ e < d + 1, ¬ breachAt w L.toNat e := by
          intro e he
          rcases Nat.lt_succ_iff_lt_or_eq.mp he with h | rfl
          · exact hnb e h
          · rintro ⟨hLe, hall⟩
            rcases hmax with hcd' | hwf
            · omega
            · have := hall (c + 1) hcLn
              have harith : e - (c + 1) = e - c - 1 := by omega
              rw [harith, hwf] at this
              cases this
        have := ih (d + 1) (c + 1) (by omega) hcLn hrun' hmax' hnb' d'
        have harith : d + 1 + rem = d + (rem + 1) := by omega
        rwa [harith] at this
    · -- day off: the counter resets
      have hwd' : w d = false := by
        cases h : w d
        · rfl
        · exact absurd h hwd
      have hres : consecGo w L (rem + 1) d c
          = consecGo w L rem (d + 1) 0 := by
        simp only [consecGo, hwd', Bool.false_eq_true, if_neg, ite_false]
      rw [hres]
      have hnb' : ∀ e < d + 1, ¬ breachAt w L.toNat e := by
        intro e he
        rcases Nat.lt_succ_iff_lt_or_eq.mp he with h | rfl
        · exact hnb e h
        · rintro ⟨_, hall⟩
          have := hall 0 (Nat.zero_le _)
          simp only [Nat.sub_zero] at this
          rw [hwd'] at this
          cases this
      have := ih (d + 1) 0 (Nat.zero_le _) (Nat.zero_le _)
        (by intro i hi; omega) (Or.inr (by simpa using hwd')) hnb' d'
      have harith : d + 1 + rem = d + (rem + 1) := by omega
      rwa [harith] at this

/-- Top-level form: the scan over the whole horizon reports exactly the
least breach day (if it exists). -/
theorem consecGo_top_iff {w : Nat → Bool} {L : Int} (hL : 0 < L)
    (numDays d' : Nat) :
    consecGo w L numDays 0 0 = some d' ↔
      (d' < numDays ∧ breachAt w L.toNat d' ∧
        ∀ e < d', ¬ breachAt w L.toNat e) := by
  have := @consecGo_some_iff w L hL numDays 0 0 (le_refl 0) (Nat.zero_le _)
    (fun i hi => absurd hi (Nat.not_lt_zero i)) (Or.inl rfl)
    (fun e he => absurd he (Nat.not_lt_zero e)) d'
  simpa using this

/-- When no day breaches the cap, the scan reports nothing. -/
theorem consecGo_top_none {w : Nat → Bool} {L : Int} (hL : 0 < L)
    {numDays : Nat} (h : ∀ e < numDays, ¬ breachAt w L.toNat e) :
    consecGo w L numDays 0 0 = none := by
  cases hgo : consecGo w L numDays 0 0 with
  | none => rfl
  | some d' =>
    have hc := (consecGo_top_iff hL numDays d').mp hgo
    exact absurd hc.2.1 (h d' hc.1)

/-- When some day breaches the cap, the scan reports the least one. -/
theorem consecGo_top_some {w : Nat → Bool} {L : Int} (hL : 0 < L)
    {numDays : Nat} {e : Nat} (he : e < numDays)
    (hbr : breachAt w L.toNat e) :
    ∃ d', consecGo w L numDays 0 0 = some d' := by
  have hex : ∃ k, breachAt w L.toNat k := ⟨e, hbr⟩
  refine ⟨Nat.find hex, ?_⟩
  rw [consecGo_top_iff hL]
  refine ⟨?_, Nat.find_spec hex, fun k hk => Nat.find_min hex hk⟩
  exact Nat.lt_of_le_of_lt (Nat.find_min' hex hbr) he

/-! ## Shape of each validator phase -/

theorem symbolViols_shape {schedule : List (List String)}
    {shifts : List String} {numNurses numDays : Nat} {v : Violation}
    (h : v ∈ symbolViols schedule shifts numNurses numDays) :
    ∃ n d s, v = Violation.symbol n d s := by
  simp only [symbolViols, List.mem_flatMap, List.mem_filterMap,
    List.mem_range] at h
  obtain ⟨n, _, d, _, hv⟩ := h
  by_cases hc : cellD schedule n d ∈ allowedSymbols shifts
  · rw [if_pos hc] at hv; cases hv
  · rw [if_neg hc] at hv
    exact ⟨n, d, _, (Option.some.inj hv).symm⟩

theorem coverShifts_shape {schedule : List (List String)}
    {demand : List (List (String × Int))} {numNurses d : Nat} :
    ∀ {ss : List String} {l : List Violation},
      coverShifts schedule demand numNurses d ss = .ok l →
      ∀ v ∈ l, ∃ dd s g ne, v = Violation.cover dd s g ne := by
  intro ss
  induction ss with
  | nil =>
    intro l h v hv
    simp only [coverShifts] at h
    cases h
    cases hv
  | cons s ss ih =>
    intro l h v hv
    simp only [coverShifts, Bind.bind, Except.bind] at h
    cases hreq : demandLookup demand d s with
    | error e => rw [hreq] at h; cases h
    | ok req =>
      rw [hreq] at h
      cases hrest : coverShifts schedule demand numNurses d ss with
      | error e => rw [hrest] at h; cases h
      | ok restV =>
        rw [hrest] at h
        simp only [pure, Except.pure, Except.ok.injEq] at h
        subst h
        rcases List.mem_append.mp hv with hv1 | hv2
        · by_cases hc : ((countShift schedule numNurses d s : Int) ≠ req)
          · rw [if_pos hc] at hv1
            exact ⟨d, s, _, req, List.mem_singleton.mp hv1⟩
          · rw [if_neg hc] at hv1; cases hv1
        · exact ih hrest v hv2

theorem coverDays_shape {schedule : List (List String)}
    {demand : List (List (String × Int))} {numNurses : Nat}
    {shifts : List String} :
    ∀ {ds : List Nat} {l : List Violation},
      coverDays schedule demand numNurses shifts ds = .ok l →
      ∀ v ∈ l, ∃ dd s g ne, v = Violation.cover dd s g ne := by
  intro ds
  induction ds with
  | nil =>
    intro l h v hv
    simp only [coverDays] at h
    cases h
    cases hv
  | cons d ds ih =>
    intro l h v hv
    simp only [coverDays, Bind.bind, Except.bind] at h
    cases hday : coverShifts schedule demand numNurses d shifts with
    | error e => rw [hday] at h; cases h
    | ok dayV =>
      rw [hday] at h
      cases hrest : coverDays schedule demand numNurses shifts ds with
      | error e => rw [hrest] at h; cases h
      | ok restV =>
        rw [hrest] at h
        simp only [pure, Except.pure, Except.ok.injEq] at h
        subst h
        rcases List.mem_append.mp hv with hv1 | hv2
        · exact coverShifts_shape hday v hv1
        · exact ih hrest v hv2

theorem offViols_shape {schedule : List (List String)}
    {cfg : RosteringConfig} {numNurses numDays : Nat} {v : Violation}
    (h : v ∈ offViols schedule cfg numNurses numDays) :
    ∃ n o m, v = Violation.off n o m := by
  unfold offViols at h
  by_cases hg : 0 < cfg.min_days_off
  · rw [if_pos hg] at h
    simp only [List.mem_filterMap, List.mem_range] at h
    obtain ⟨n, _, hv⟩ := h
    by_cases hc : ((numDays : Int) -
        (List.range numDays).countP (fun d => worksB schedule n d)
          < cfg.min_days_off)
    · rw [if_pos hc] at hv
      exact ⟨n, _, _, (Option.some.inj hv).symm⟩
    · rw [if_neg hc] at hv; cases hv
  · rw [if_neg hg] at h; cases h

theorem consecViols_shape {schedule : List (List String)}
    {cfg : RosteringConfig} {numNurses numDays : Nat} {v : Violation}
    (h : v ∈ consecViols schedule cfg numNurses numDays) :
    ∃ n lim d, v = Violation.consec n lim d := by
  unfold consecViols at h
  cases hm : cfg.max_consecutive_work_days with
  | none => rw [hm] at h; cases h
  | some L =>
    rw [hm] at h
    dsimp only at h
    by_cases hg : 0 < L ∧ L + 1 ≤ (numDays : Int)
    · rw [if_pos hg] at h
      simp only [List.mem_filterMap, List.mem_range, Option.map_eq_some'] at h
      obtain ⟨n, _, d, _, hv⟩ := h
      exact ⟨n, L, d, hv.symm⟩
    · rw [if_neg hg] at h; cases h

theorem restViols_shape {schedule : List (List String)}
    {cfg : RosteringConfig} {numNurses numDays : Nat} {v : Violation}
    (h : v ∈ restViols schedule cfg numNurses numDays) :
    ∃ n d nx, v = Violation.rest n d nx := by
  unfold restViols at h
  by_cases hg : cfg.rest_after_night = true ∧ 2 ≤ numDays
  · rw [if_pos hg] at h
    simp only [List.mem_flatMap, List.mem_filterMap, List.mem_range] at h
    obtain ⟨n, _, d, _, hv⟩ := h
    by_cases hc : cellD schedule n d = "N" ∧ cellD schedule n (d + 1) ≠ "OFF"
    · rw [if_pos hc] at hv
      exact ⟨n, d, _, (Option.some.inj hv).symm⟩
    · rw [if_neg hc] at hv; cases hv
  · rw [if_neg hg] at h; cases h

theorem nightsViols_shape {schedule : List (List String)}
    {cfg : RosteringConfig} {numNurses numDays : Nat} {v : Violation}
    (h : v ∈ nightsViols schedule cfg numNurses numDays) :
    ∃ n k m, v = Violation.nights n k m := by
  unfold nightsViols at h
  simp only [List.mem_filterMap, List.mem_range] at h
  obtain ⟨n, _, hv⟩ := h
  by_cases hc : (((List.range numDays).countP
      (fun d => cellD schedule n d == "N") : Int) > cfg.max_nights_per_nurse)
  · rw [if_pos hc] at hv
    exact ⟨n, _, _, (Option.some.inj hv).symm⟩
  · rw [if_neg hc] at hv; cases hv

/-- Membership in the rest-after-night phase, when its guard is active. -/
theorem mem_restViols_iff {schedule : List (List String)}
    {cfg : RosteringConfig} {numNurses numDays n d : Nat} {nx : String}
    (hg : cfg.rest_after_night = true ∧ 2 ≤ numDays) :
    Violation.rest n d nx ∈ restViols schedule cfg numNurses numDays ↔
      (n < numNurses ∧ d < numDays - 1 ∧ cellD schedule n d = "N" ∧
        cellD schedule n (d + 1) = nx ∧ nx ≠ "OFF") := by
  unfold restViols
  rw [if_pos hg]
  simp only [List.mem_flatMap, List.mem_filterMap, List.mem_range]
  constructor
  · rintro ⟨n', hn', d', hd', hv⟩
    by_cases hc : cellD schedule n' d' = "N" ∧ cellD schedule n' (d' + 1) ≠ "OFF"
    · rw [if_pos hc] at hv
      have heq := Option.some.inj hv
      injection heq with h1 h2 h3
      subst h1; subst h2; subst h3
      exact ⟨hn', hd', hc.1, rfl, hc.2⟩
    · rw [if_neg hc] at hv; cases hv
  · rintro ⟨hn, hd, hN, hnx, hOFF⟩
    refine ⟨n, hn, d, hd, ?_⟩
    rw [if_pos ⟨hN, by rw [hnx]; exact hOFF⟩, hnx]

/-- Membership in the consecutive-days phase, when its guard is active. -/
theorem mem_consecViols_iff {schedule : List (List String)}
    {cfg : RosteringConfig} {numNurses numDays n d : Nat} {L lim : Int}
    (hm : cfg.max_consecutive_work_days = some L)
    (hg : 0 < L ∧ L + 1 ≤ (numDays : Int)) :
    Violation.consec n lim d ∈ consecViols schedule cfg numNurses numDays ↔
      (lim = L ∧ n < numNurses ∧
        consecGo (worksB schedule n) L numDays 0 0 = some d) := by
  unfold consecViols
  rw [hm]
  dsimp only
  rw [if_pos hg]
  simp only [List.mem_filterMap, List.mem_range, Option.map_eq_some']
  constructor
  · rintro ⟨n', hn', d', hgo, hv⟩
    injection hv with h1 h2 h3
    subst h1; subst h2; subst h3
    exact ⟨rfl, hn', hgo⟩
  · rintro ⟨rfl, hn, hgo⟩
    exact ⟨n, hn, d, hgo, rfl⟩

/-- Whether a violation is a CONSEC record for nurse `n`. -/
def isConsecOf (n : Nat) : Violation → Bool
  | .consec m _ _ => m == n
  | _ => false

theorem countP_filterMap_zero {f : Nat → Option Violation}
    {p : Violation → Bool} {n : Nat} {l : List Nat}
    (hsel : ∀ m v, f m = some v → p v = true → m = n) (hn : n ∉ l) :
    (l.filterMap f).countP p = 0 := by
  induction l with
  | nil => simp
  | cons m t ih =>
    have hnt : n ∉ t := fun h => hn (List.mem_cons_of_mem _ h)
    cases hfm : f m with
    | none => rw [List.filterMap_cons, hfm]; exact ih hnt
    | some v =>
      rw [List.filterMap_cons, hfm, List.countP_cons]
      have hpv : p v = false := by
        cases hp : p v
        · rfl
        · exact absurd (hsel m v hfm hp ▸ List.mem_cons_self m t) hn
      rw [ih hnt, hpv]
      simp

theorem countP_filterMap_le_one {f : Nat → Option Violation}
    {p : Violation → Bool} {n : Nat} {l : List Nat}
    (hsel : ∀ m v, f m = some v → p v = true → m = n) (hnd : l.Nodup) :
    (l.filterMap f).countP p ≤ 1 := by
  induction l with
  | nil => simp
  | cons m t ih =>
    have hmt : m ∉ t := (List.nodup_cons.mp hnd).1
    have hnd' : t.Nodup := (List.nodup_cons.mp hnd).2
    cases hfm : f m with
    | none => rw [List.filterMap_cons, hfm]; exact ih hnd'
    | some v =>
      rw [List.filterMap_cons, hfm, List.countP_cons]
      cases hp : p v with
      | false => simpa using ih hnd'
      | true =>
        have hm : m = n := hsel m v hfm hp
        have hz : (t.filterMap f).countP p = 0 :=
          countP_filterMap_zero hsel (hm ▸ hmt)
        rw [hz]
        simp

/-- Splitting a successful validation into its six phases. -/
theorem validate_ok_iff {schedule : List (List String)}
    {demand : List (List (String × Int))} {cfg : RosteringConfig}
    {vs : List Violation} :
    validate_schedule schedule demand cfg = .ok vs ↔
    ∃ cov, coverDays schedule demand schedule.length cfg.shifts
        (List.range (scheduleDays schedule)) = .ok cov ∧
      vs = symbolViols schedule cfg.shifts schedule.length
            (scheduleDays schedule) ++ cov ++
          offViols schedule cfg schedule.length (scheduleDays schedule) ++
          consecViols schedule cfg schedule.length (scheduleDays schedule) ++
          restViols schedule cfg schedule.length (scheduleDays schedule) ++
          nightsViols schedule cfg schedule.length (scheduleDays schedule) := by
  unfold validate_schedule
  cases h : coverDays schedule demand schedule.length cfg.shifts
      (List.range (scheduleDays schedule)) with
  | error e =>
    simp only [h, Bind.bind, Except.bind]
    constructor
    · intro hc; cases hc
    · rintro ⟨cov, hc, _⟩; cases hc
  | ok cov =>
    simp only [h, Bind.bind, Except.bind, pure, Except.pure, Except.ok.injEq]
    constructor
    · intro hv; exact ⟨cov, rfl, hv.symm⟩
    · rintro ⟨cov', hc, hv⟩
      cases hc
      exact hv.symm

/-- A REST record occurs in the final violation list exactly when it occurs
in the rest-after-night phase: no other phase emits `Violation.rest`. -/
theorem vs_mem_rest_iff {schedule : List (List String)}
    {demand : List (List (String × Int))} {cfg : RosteringConfig}
    {vs : List Violation} {n d : Nat} {nx : String}
    (hok : validate_schedule schedule demand cfg = .ok vs) :
    Violation.rest n d nx ∈ vs ↔
      Violation.rest n d nx ∈
        restViols schedule cfg schedule.length (scheduleDays schedule) := by
  obtain ⟨cov, hcov, rfl⟩ := validate_ok_iff.mp hok
  simp only [List.mem_append]
  constructor
  · rintro (((((h | h) | h) | h) | h) | h)
    · obtain ⟨_, _, _, heq⟩ := symbolViols_shape h; cases heq
    · obtain ⟨_, _, _, _, heq⟩ := coverDays_shape hcov _ h; cases heq
    · obtain ⟨_, _, _, heq⟩ := offViols_shape h; cases heq
    · obtain ⟨_, _, _, heq⟩ := consecViols_shape h; cases heq
    · exact h
    · obtain ⟨_, _, _, heq⟩ := nightsViols_shape h; cases heq
  · intro h
    exact Or.inl (Or.inr h)

/-- A CONSEC record occurs in the final violation list exactly when it
occurs in the consecutive-days phase. -/
theorem vs_mem_consec_iff {schedule : List (List String)}
    {demand : List (List (String × Int))} {cfg : RosteringConfig}
    {vs : List Violation} {n d : Nat} {lim : Int}
    (hok : validate_schedule schedule demand cfg = .ok vs) :
    Violation.consec n lim d ∈ vs ↔
      Violation.consec n lim d ∈
        consecViols schedule cfg schedule.length (scheduleDays schedule) := by
  obtain ⟨cov, hcov, rfl⟩ := validate_ok_iff.mp hok
  simp only [List.mem_append]
  constructor
  · rintro (((((h | h) | h) | h) | h) | h)
    · obtain ⟨_, _, _, heq⟩ := symbolViols_shape h; cases heq
    · obtain ⟨_, _, _, _, heq⟩ := coverDays_shape hcov _ h; cases heq
    · obtain ⟨_, _, _, heq⟩ := offViols_shape h; cases heq
    · exact h
    · obtain ⟨_, _, _, heq⟩ := restViols_shape h; cases heq
    · obtain ⟨_, _, _, heq⟩ := nightsViols_shape h; cases heq
  · intro h
    exact Or.inl (Or.inl (Or.inr h))

/-- Counting CONSEC records for one nurse only sees the consecutive-days
phase. -/
theorem vs_countP_consec {schedule : List (List String)}
    {demand : List (List (String × Int))} {cfg : RosteringConfig}
    {vs : List Violation} {n : Nat}
    (hok : validate_schedule schedule demand cfg = .ok vs) :
    vs.countP (isConsecOf n) =
      (consecViols schedule cfg schedule.length
        (scheduleDays schedule)).countP (isConsecOf n) := by
  obtain ⟨cov, hcov, rfl⟩ := validate_ok_iff.mp hok
  simp only [List.countP_append]
  have h1 : (symbolViols schedule cfg.shifts schedule.length
      (scheduleDays schedule)).countP (isConsecOf n) = 0 :=
    List.countP_eq_zero.mpr (fun v hv => by
      obtain ⟨_, _, _, rfl⟩ := symbolViols_shape hv; simp [isConsecOf])
  have h2 : cov.countP (isConsecOf n) = 0 :=
    List.countP_eq_zero.mpr (fun v hv => by
      obtain ⟨_, _, _, _, rfl⟩ := coverDays_shape hcov v hv; simp [isConsecOf])
  have h3 : (offViols schedule cfg schedule.length
      (scheduleDays schedule)).countP (isConsecOf n) = 0 :=
    List.countP_eq_zero.mpr (fun v hv => by
      obtain ⟨_, _, _, rfl⟩ := offViols_shape hv; simp [isConsecOf])
  have h5 : (restViols schedule cfg schedule.length
      (scheduleDays schedule)).countP (isConsecOf n) = 0 :=
    List.countP_eq_zero.mpr (fun v hv => by
      obtain ⟨_, _, _, rfl⟩ := restViols_shape hv; simp [isConsecOf])
  have h6 : (nightsViols schedule cfg schedule.length
      (scheduleDays schedule)).countP (isConsecOf n) = 0 :=
    List.countP_eq_zero.mpr (fun v hv => by
      obtain ⟨_, _, _, rfl⟩ := nightsViols_shape hv; simp [isConsecOf])
  omega

/-- The consecutive-days phase emits at most one CONSEC record per nurse. -/
theorem consecViols_countP_le_one (schedule : List (List String))
    (cfg : RosteringConfig) (numNurses numDays n : Nat) :
    (consecViols schedule cfg numNurses numDays).countP (isConsecOf n) ≤ 1 := by
  unfold consecViols
  cases hm : cfg.max_consecutive_work_days with
  | none => simp
  | some L =>
    dsimp only
    by_cases hg : 0 < L ∧ L + 1 ≤ (numDays : Int)
    · rw [if_pos hg]
      refine @countP_filterMap_le_one _ (isConsecOf n) n
        (List.range numNurses) ?_ (List.nodup_range numNurses)
      intro m v hfm hp
      rcases Option.map_eq_some'.mp hfm with ⟨d', _, rfl⟩
      simpa [isConsecOf] using hp
    · rw [if_neg hg]; simp

/-! ## Claim C3: rest after night forces full OFF -/

/-- C3: with `rest_after_night` enabled and at least two days, the validator
reports a REST violation for `(n, d)` exactly when `schedule[n][d] = "N"`
and `schedule[n][d+1] ≠ "OFF"` (for `d + 1 < num_days`); consequently a
schedule with no REST violations has `"OFF"` (not merely not-"M") on every
day following a night shift. -/
theorem rest_violation_characterization
    (schedule : List (List String)) (demand : List (List (String × Int)))
    (cfg : RosteringConfig) (vs : List Violation)
    (hrest : cfg.rest_after_night = true) (hD : 2 ≤ scheduleDays schedule)
    (hok : validate_schedule schedule demand cfg = .ok vs) :
    (∀ n d nx, (Violation.rest n d nx ∈ vs ↔
      (n < schedule.length ∧ d + 1 < scheduleDays schedule ∧
        cellD schedule n d = "N" ∧ cellD schedule n (d + 1) = nx ∧
        nx ≠ "OFF"))) ∧
    ((∀ n d nx, Violation.rest n d nx ∉ vs) →
      ∀ n, n < schedule.length → ∀ d, d + 1 < scheduleDays schedule →
        cellD schedule n d = "N" → cellD schedule n (d + 1) = "OFF") := by
  have key : ∀ n d nx, (Violation.rest n d nx ∈ vs ↔
      (n < schedule.length ∧ d + 1 < scheduleDays schedule ∧
        cellD schedule n d = "N" ∧ cellD schedule n (d + 1) = nx ∧
        nx ≠ "OFF")) := by
    intro n d nx
    rw [vs_mem_rest_iff hok, mem_restViols_iff ⟨hrest, hD⟩]
    constructor
    · rintro ⟨hn, hd, h3, h4, h5⟩
      exact ⟨hn, by omega, h3, h4, h5⟩
    · rintro ⟨hn, hd, h3, h4, h5⟩
      exact ⟨hn, by omega, h3, h4, h5⟩
  refine ⟨key, ?_⟩
  intro hnone n hn d hd hN
  by_contra hoff
  exact hnone n d (cellD schedule n (d + 1))
    ((key n d _).mpr ⟨hn, hd, hN, rfl, hoff⟩)

/-- Witness for C3 at a concrete schedule: nurse 0 works "N" on day 0 and
"M" on day 1, and the REST violation is indeed reported. -/
theorem rest_violation_characterization_witness :
    Violation.rest 0 0 "M" ∈ [Violation.off 0 0 1, Violation.rest 0 0 "M"] := by
  have h := rest_violation_characterization [["N", "M"]]
    [[("M", 0), ("A", 0), ("N", 1)], [("M", 1), ("A", 0), ("N", 0)]]
    {} [Violation.off 0 0 1, Violation.rest 0 0 "M"]
    rfl (by decide) (by decide)
  exact (h.1 0 0 "M").mpr (by decide)

/-! ## Claim C4: first-breach-only CONSEC reporting -/

/-- C4 (amended): the validator emits at most one CONSEC violation per
nurse; when the consecutive-days check is active, the CONSEC record for
nurse `n` names exactly the first day on which the running count of
consecutive working days exceeds the cap (the end day of the first breaching
`L+1`-day window, which for a run longer than `L+1` days is not the end day
of the run); and a nurse with at least one breaching day gets exactly one
CONSEC violation. -/
theorem consec_first_breach_characterization
    (schedule : List (List String)) (demand : List (List (String × Int)))
    (cfg : RosteringConfig) (vs : List Violation) (n : Nat)
    (hok : validate_schedule schedule demand cfg = .ok vs) :
    vs.countP (isConsecOf n) ≤ 1 ∧
    (∀ L : Int, cfg.max_consecutive_work_days = some L → 0 < L →
      L + 1 ≤ (scheduleDays schedule : Int) →
      ((∀ lim d, (Violation.consec n lim d ∈ vs ↔
        (lim = L ∧ n < schedule.length ∧ d < scheduleDays schedule ∧
          breachAt (worksB schedule n) L.toNat d ∧
          ∀ e < d, ¬ breachAt (worksB schedule n) L.toNat e))) ∧
      (n < schedule.length →
        (∃ e, e < scheduleDays schedule ∧
          breachAt (worksB schedule n) L.toNat e) →
        vs.countP (isConsecOf n) = 1))) := by
  have hle : vs.countP (isConsecOf n) ≤ 1 := by
    rw [vs_countP_consec hok]
    exact consecViols_countP_le_one schedule cfg schedule.length
      (scheduleDays schedule) n
  refine ⟨hle, ?_⟩
  intro L hm hL hD1
  constructor
  · intro lim d
    rw [vs_mem_consec_iff hok, mem_consecViols_iff hm ⟨hL, hD1⟩,
      consecGo_top_iff hL]
  · rintro hn ⟨e, he, hbr⟩
    obtain ⟨d', hgo⟩ := consecGo_top_some hL he hbr
    have hmem : Violation.consec n L d' ∈ vs :=
      (vs_mem_consec_iff hok).mpr
        ((mem_consecViols_iff hm ⟨hL, hD1⟩).mpr ⟨rfl, hn, hgo⟩)
    have hpos : 0 < vs.countP (isConsecOf n) :=
      List.countP_pos_iff.mpr ⟨_, hmem, by simp [isConsecOf]⟩
    omega

/-- Counterexample for C4 as frozen: a single nurse working all of a 7-day
horizon with cap 5.  The unique CONSEC violation names day 5 (the end of the
first breaching 6-day window), while the run of working days it belongs to
ends at day 6 (the last day, still worked) — so the violation does NOT name
the end day of the first run exceeding the cap. -/
theorem consec_counterexample_names_window_end :
    validate_schedule [["M", "M", "M", "M", "M", "M", "M"]]
      [[("M", 1), ("A", 0), ("N", 0)], [("M", 1), ("A", 0), ("N", 0)],
       [("M", 1), ("A", 0), ("N", 0)], [("M", 1), ("A", 0), ("N", 0)],
       [("M", 1), ("A", 0), ("N", 0)], [("M", 1), ("A", 0), ("N", 0)],
       [("M", 1), ("A", 0), ("N", 0)]] {} =
      .ok [Violation.off 0 0 1, Violation.consec 0 5 5] ∧
    worksB [["M", "M", "M", "M", "M", "M", "M"]] 0 6 = true ∧
    scheduleDays [["M", "M", "M", "M", "M", "M", "M"]] = 7 := by
  refine ⟨by decide, by decide, by decide⟩

/-- Witness for C4 (amended) at the concrete 6-in-a-row scenario: exactly
one CONSEC violation is reported, naming day 5. -/
theorem consec_first_breach_witness :
    ([Violation.off 0 0 1, Violation.consec 0 5 5].countP (isConsecOf 0) = 1)
      ∧ Violation.consec 0 5 5 ∈ [Violation.off 0 0 1, Violation.consec 0 5 5] := by
  have h := consec_first_breach_characterization
    [["M", "M", "M", "M", "M", "M"]]
    [[("M", 1), ("A", 0), ("N", 0)], [("M", 1), ("A", 0), ("N", 0)],
     [("M", 1), ("A", 0), ("N", 0)], [("M", 1), ("A", 0), ("N", 0)],
     [("M", 1), ("A", 0), ("N", 0)], [("M", 1), ("A", 0), ("N", 0)]]
    {} [Violation.off 0 0 1, Violation.consec 0 5 5] 0 (by decide)
  obtain ⟨hle, h2⟩ := h
  obtain ⟨hmemiff, hone⟩ := h2 5 rfl (by decide) (by decide)
  refine ⟨hone (by decide) ⟨5, by decide, by decide⟩, ?_⟩
  exact (hmemiff 5 5).mpr (by decide)

/-! ## Claim C10: validation is deterministic and idempotent -/

/-- C10: `validate_schedule` is a pure function of
`(schedule, demand, config)` — the source reads no global state and uses no
randomness, so its shallow embedding is a plain function and two runs on the
same inputs yield the identical violation list, in the same order. -/
theorem validate_schedule_deterministic
    (schedule : List (List String)) (demand : List (List (String × Int)))
    (cfg : RosteringConfig) :
    validate_schedule schedule demand cfg
      = validate_schedule schedule demand cfg := rfl

/-! ## Claim C1: round-trip from satisfying assignment to clean validation -/

/-- A decoded cell equal to a non-OFF symbol comes from a set variable. -/
theorem decodeCell_eq_imp {a : Nat → Nat → String → Bool}
    {shifts : List String} {n d : Nat} {s : String} (hs : s ≠ "OFF")
    (h : decodeCell a shifts n d = s) : a n d s = true ∧ s ∈ shifts := by
  unfold decodeCell at h
  cases hfind : shifts.find? (fun t => a n d t) with
  | none =>
    rw [hfind] at h
    exact absurd h.symm hs
  | some t =>
    rw [hfind] at h
    simp only [Option.getD_some] at h
    subst h
    exact ⟨List.find?_some hfind, List.mem_of_find?_eq_some hfind⟩

/-- Symbol phase is clean on any decoded schedule. -/
theorem decode_symbolViols_nil (a : Nat → Nat → String → Bool)
    (shifts : List String) (numNurses numDays : Nat) :
    symbolViols (decodeSchedule a shifts numNurses numDays) shifts
      numNurses numDays = [] := by
  unfold symbolViols
  rw [List.flatMap_eq_nil_iff]
  intro n hn
  rw [List.filterMap_eq_nil_iff]
  intro d hd
  rw [List.mem_range] at hn hd
  rw [if_pos]
  rw [cellD_decodeSchedule hn hd]
  unfold allowedSymbols
  rcases decodeCell_mem_or_off a shifts n d with h | h
  · exact List.mem_append.mpr (Or.inl h)
  · exact List.mem_append.mpr (Or.inr (h ▸ List.mem_singleton.mpr rfl))

/-- The inner coverage loop is clean when every lookup succeeds with exactly
the counted value. -/
theorem coverShifts_all_ok {schedule : List (List String)}
    {demand : List (List (String × Int))} {numNurses d : Nat} :
    ∀ {ss : List String},
      (∀ s ∈ ss, demandLookup demand d s
        = .ok ((countShift schedule numNurses d s : Int))) →
      coverShifts schedule demand numNurses d ss = .ok [] := by
  intro ss
  induction ss with
  | nil => intro _; rfl
  | cons s t ih =>
    intro h
    have hs := h s (List.mem_cons_self s t)
    have ht := ih (fun u hu => h u (List.mem_cons_of_mem _ hu))
    simp only [coverShifts, Bind.bind, Except.bind, hs, ht]
    simp [pure, Except.pure]

/-- The outer coverage loop is clean when each listed day is. -/
theorem coverDays_all_ok {schedule : List (List String)}
    {demand : List (List (String × Int))} {numNurses : Nat}
    {shifts : List String} :
    ∀ {ds : List Nat},
      (∀ d ∈ ds, coverShifts schedule demand numNurses d shifts = .ok []) →
      coverDays schedule demand numNurses shifts ds = .ok [] := by
  intro ds
  induction ds with
  | nil => intro _; rfl
  | cons d t ih =>
    intro h
    have hd := h d (List.mem_cons_self d t)
    have ht := ih (fun u hu => h u (List.mem_cons_of_mem _ hu))
    simp only [coverDays, Bind.bind, Except.bind, hd, ht]
    simp [pure, Except.pure]

/-- Counting assigned nurses on the decoded schedule equals counting set
variables, for a configured shift, under the one-shift constraint. -/
theorem decode_countShift {a : Nat → Nat → String → Bool}
    {shifts : List String} {numNurses numDays d : Nat} {s : String}
    (hOFF : "OFF" ∉ shifts) (hs : s ∈ shifts) (hd : d < numDays)
    (h1 : ∀ n < numNurses, workSum a shifts n d ≤ 1) :
    countShift (decodeSchedule a shifts numNurses numDays) numNurses d s
      = (List.range numNurses).countP (fun n => a n d s) := by
  unfold countShift
  apply List.countP_congr
  intro n hn
  rw [List.mem_range] at hn
  rw [cellD_decodeSchedule hn hd]
  constructor
  · intro hb
    exact (decodeCell_eq_iff hOFF (h1 n hn) hs).mp (by simpa using hb)
  · intro hb
    simp only [beq_iff_eq]
    exact (decodeCell_eq_iff hOFF (h1 n hn) hs).mpr hb

/-- A decoded cell is worked exactly when its `work` value is 1. -/
theorem decode_worksB {a : Nat → Nat → String → Bool}
    {shifts : List String} {numNurses numDays n d : Nat}
    (hOFF : "OFF" ∉ shifts) (hn : n < numNurses) (hd : d < numDays) :
    worksB (decodeSchedule a shifts numNurses numDays) n d = true ↔
      1 ≤ workSum a shifts n d := by
  unfold worksB
  rw [cellD_decodeSchedule hn hd, bne_iff_ne]
  exact decodeCell_ne_off_iff hOFF

/-- The validator's per-nurse worked-day count on the decoded schedule
equals the model's `Σ_d work(n,d)`, under the one-shift constraint. -/
theorem decode_totalWork {a : Nat → Nat → String → Bool}
    {shifts : List String} {numNurses numDays n : Nat}
    (hOFF : "OFF" ∉ shifts) (hn : n < numNurses)
    (h1 : ∀ d < numDays, workSum a shifts n d ≤ 1) :
    (List.range numDays).countP
        (fun d => worksB (decodeSchedule a shifts numNurses numDays) n d)
      = ((List.range numDays).map (fun d => workSum a shifts n d)).sum := by
  rw [sum_map_eq_countP (fun d hd => h1 d (List.mem_range.mp hd))]
  apply List.countP_congr
  intro d hd
  rw [List.mem_range] at hd
  constructor
  · intro hw
    have hge := (decode_worksB hOFF hn hd).mp hw
    have hle := h1 d hd
    simp only [beq_iff_eq]
    omega
  · intro hw
    apply (decode_worksB hOFF hn hd).mpr
    simp only [beq_iff_eq] at hw
    omega

/-- Min-days-off phase is clean under hard constraints 1 and 3. -/
theorem decode_offViols_nil {a : Nat → Nat → String → Bool}
    {cfg : RosteringConfig} {numNurses numDays : Nat}
    (hOFF : "OFF" ∉ cfg.shifts)
    (h1 : hcOneShift numNurses numDays cfg.shifts a)
    (h3 : hcMinDaysOff numNurses numDays cfg.shifts cfg a) :
    offViols (decodeSchedule a cfg.shifts numNurses numDays) cfg
      numNurses numDays = [] := by
  unfold offViols
  by_cases hg : 0 < cfg.min_days_off
  · rw [if_pos hg, List.filterMap_eq_nil_iff]
    intro n hn
    rw [List.mem_range] at hn
    have htw := decode_totalWork hOFF hn (fun d hd => h1 n hn d hd)
    have hbound := h3 hg n hn
    dsimp only
    rw [htw, if_neg]
    omega
  · rw [if_neg hg]

/-- Consecutive-days phase is clean under hard constraints 1 and 4. -/
theorem decode_consecViols_nil {a : Nat → Nat → String → Bool}
    {cfg : RosteringConfig} {numNurses numDays : Nat}
    (hOFF : "OFF" ∉ cfg.shifts)
    (h4 : hcMaxConsec numNurses numDays cfg.shifts cfg a) :
    consecViols (decodeSchedule a cfg.shifts numNurses numDays) cfg
      numNurses numDays = [] := by
  unfold consecViols
  cases hm : cfg.max_consecutive_work_days with
  | none => rfl
  | some L =>
    dsimp only
    by_cases hg : 0 < L ∧ L + 1 ≤ (numDays : Int)
    · rw [if_pos hg, List.filterMap_eq_nil_iff]
      intro n hn
      rw [List.mem_range] at hn
      rw [Option.map_eq_none']
      apply consecGo_top_none hg.1
      intro e he hbr
      obtain ⟨hLe, hall⟩ := hbr
      have hLnL : (L.toNat : Int) = L := Int.toNat_of_nonneg (le_of_lt hg.1)
      have hmemL : L ∈ cfg.max_consecutive_work_days.toList := by
        rw [hm]; simp
      have hstart : e - L.toNat < numDays - L.toNat := by omega
      have hwin := h4 L hmemL hg.1 hg.2 n hn (e - L.toNat) hstart
      have hterm : ∀ i ∈ List.range (L.toNat + 1),
          1 ≤ workSum a cfg.shifts n (e - L.toNat + i) := by
        intro i hi
        rw [List.mem_range] at hi
        have hw := hall (L.toNat - i) (Nat.sub_le _ _)
        have harith : e - (L.toNat - i) = e - L.toNat + i := by omega
        rw [harith] at hw
        have hd2 : e - L.toNat + i < numDays := by omega
        exact (decode_worksB hOFF hn hd2).mp hw
      have hsum := length_le_sum_map hterm
      rw [List.length_range] at hsum
      omega
    · rw [if_neg hg]

/-- Rest-after-night phase is clean under hard constraints 1 and 5. -/
theorem decode_restViols_nil {a : Nat → Nat → String → Bool}
    {cfg : RosteringConfig} {numNurses numDays : Nat}
    (hOFF : "OFF" ∉ cfg.shifts)
    (h5 : hcRestAfterNight numNurses numDays cfg.shifts cfg a) :
    restViols (decodeSchedule a cfg.shifts numNurses numDays) cfg
      numNurses numDays = [] := by
  unfold restViols
  by_cases hg : cfg.rest_after_night = true ∧ 2 ≤ numDays
  · rw [if_pos hg, List.flatMap_eq_nil_iff]
    intro n hn
    rw [List.mem_range] at hn
    rw [List.filterMap_eq_nil_iff]
    intro d hd
    rw [List.mem_range] at hd
    have hdD : d < numDays := by omega
    have hd1 : d + 1 < numDays := by omega
    have hc : ¬ (cellD (decodeSchedule a cfg.shifts numNurses numDays) n d = "N" ∧
        cellD (decodeSchedule a cfg.shifts numNurses numDays) n (d + 1) ≠ "OFF") := by
      rintro ⟨hN, hnotoff⟩
      rw [cellD_decodeSchedule hn hdD] at hN
      rw [cellD_decodeSchedule hn hd1] at hnotoff
      obtain ⟨ha, _⟩ := decodeCell_eq_imp (by decide) hN
      have h5' := h5 hg.1 hg.2 n hn d hd
      rw [ha] at h5'
      simp only [if_true, ite_true] at h5'
      have hws : workSum a cfg.shifts n (d + 1) = 0 := by omega
      apply hnotoff
      by_contra hne
      have := (decodeCell_ne_off_iff hOFF).mp hne
      omega
    rw [if_neg hc]
  · rw [if_neg hg]

/-- Max-nights phase is clean under hard constraint 6. -/
theorem decode_nightsViols_nil {a : Nat → Nat → String → Bool}
    {cfg : RosteringConfig} {numNurses numDays : Nat}
    (h6 : hcMaxNights numNurses numDays cfg a) :
    nightsViols (decodeSchedule a cfg.shifts numNurses numDays) cfg
      numNurses numDays = [] := by
  unfold nightsViols
  rw [List.filterMap_eq_nil_iff]
  intro n hn
  rw [List.mem_range] at hn
  have hcount : (List.range numDays).countP
      (fun d => cellD (decodeSchedule a cfg.shifts numNurses numDays) n d == "N")
      ≤ (List.range numDays).countP (fun d => a n d "N") := by
    apply List.countP_mono_left
    intro d hd hb
    rw [List.mem_range] at hd
    rw [cellD_decodeSchedule hn hd] at hb
    exact (decodeCell_eq_imp (by decide) (by simpa using hb)).1
  have h6' := h6 n hn
  dsimp only
  rw [if_neg]
  omega

/-- The validator accepts the empty schedule outright. -/
theorem validate_schedule_empty (demand : List (List (String × Int)))
    (cfg : RosteringConfig) :
    validate_schedule [] demand cfg = .ok [] := by
  have h0 : scheduleDays ([] : List (List String)) = 0 := rfl
  unfold validate_schedule
  rw [h0]
  simp only [List.range_zero, List.length_nil]
  simp only [coverDays, Bind.bind, Except.bind, pure, Except.pure]
  simp only [symbolViols, offViols, consecViols, restViols, nightsViols,
    List.range_zero, List.flatMap_nil, List.filterMap_nil, ite_self,
    List.append_nil, List.nil_append]
  cases cfg.max_consecutive_work_days <;> simp

/-- C1 (amended): for every nurse count, day count, demand table and config
whose shift set does not contain `"OFF"` (the spec's invariant "OFF is never
an assignable shift"), with the demand table passing the input checks
`solve_nurse_rostering` performs before building the model, every 0/1
assignment of the `x(n,d,s)` variables satisfying the six hard constraints
decodes to a schedule on which `validate_schedule` returns the empty
violation list. -/
theorem round_trip_validates (numNurses numDays : Nat)
    (demand : List (List (String × Int))) (cfg : RosteringConfig)
    (a : Nat → Nat → String → Bool)
    (hOFF : "OFF" ∉ cfg.shifts)
    (hlen : demand.length = numDays)
    (hdem : ∀ d < numDays, ∀ s ∈ cfg.shifts,
      ((demand.getD d []).lookup s).isSome = true)
    (hc : hardConstraintsHold numNurses numDays demand cfg a) :
    validate_schedule (decodeSchedule a cfg.shifts numNurses numDays)
      demand cfg = .ok [] := by
  rcases Nat.eq_zero_or_pos numNurses with rfl | hN
  · rw [show decodeSchedule a cfg.shifts 0 numDays = [] from by
      simp [decodeSchedule]]
    exact validate_schedule_empty demand cfg
  · obtain ⟨h1, h2, h3, h4, h5, h6⟩ := hc
    have hlen' : (decodeSchedule a cfg.shifts numNurses numDays).length
        = numNurses := length_decodeSchedule a cfg.shifts numNurses numDays
    have hdays : scheduleDays (decodeSchedule a cfg.shifts numNurses numDays)
        = numDays := scheduleDays_decodeSchedule a cfg.shifts numDays hN
    apply validate_ok_iff.mpr
    refine ⟨[], ?_, ?_⟩
    · rw [hdays, hlen']
      apply coverDays_all_ok
      intro d hd
      rw [List.mem_range] at hd
      apply coverShifts_all_ok
      intro s hs
      rcases Option.isSome_iff_exists.mp (hdem d hd s hs) with ⟨v, hv⟩
      have hdl : demandLookup demand d s = .ok v := by
        unfold demandLookup
        rw [if_pos (by omega : d < demand.length), hv]
      have hcnt : ((countShift (decodeSchedule a cfg.shifts numNurses numDays)
          numNurses d s : Nat) : Int) = v := by
        rw [decode_countShift hOFF hs hd (fun n hn => h1 n hn d hd)]
        have hcov := h2 d hd s hs
        rw [hcov]
        unfold demandAt
        rw [hv]
        rfl
      rw [hdl, ← hcnt]
    · rw [hdays, hlen', decode_symbolViols_nil,
        decode_offViols_nil hOFF h1 h3,
        decode_consecViols_nil hOFF h4,
        decode_restViols_nil hOFF h5,
        decode_nightsViols_nil h6]
      simp

/-- Counterexample for C1 as frozen (quantifying over every config): with
`shifts = ["OFF", "N"]` the model builds and the all-zero assignment
satisfies all six hard constraints and passes the input checks, yet the
decoded schedule (every cell `"OFF"`) draws a COVER violation, because the
validator counts the literal `"OFF"` cells as assignable-shift coverage.
The claim fails unless `"OFF" ∉ config.shifts` is added. -/
theorem round_trip_counterexample :
    hardConstraintsHold 1 1 [[("OFF", 0), ("N", 0)]]
      { shifts := ["OFF", "N"] } (fun _ _ _ => false) ∧
    ([[("OFF", 0), ("N", 0)]] : List (List (String × Int))).length = 1 ∧
    (∀ d < 1, ∀ s ∈ ({ shifts := ["OFF", "N"] } : RosteringConfig).shifts,
      ((([[("OFF", 0), ("N", 0)]] :
        List (List (String × Int))).getD d []).lookup s).isSome = true) ∧
    validate_schedule
      (decodeSchedule (fun _ _ _ => false)
        ({ shifts := ["OFF", "N"] } : RosteringConfig).shifts 1 1)
      [[("OFF", 0), ("N", 0)]] { shifts := ["OFF", "N"] }
      = .ok [Violation.cover 0 "OFF" 1 0] := by
  exact ⟨by decide, by decide, by decide, by decide⟩

/-- Witness for C1 (amended) at a concrete feasible instance. -/
theorem round_trip_validates_witness :
    validate_schedule
      (decodeSchedule (fun n d s => n == 0 && d == 0 && s == "M")
        ({} : RosteringConfig).shifts 1 2)
      [[("M", 1), ("A", 0), ("N", 0)], [("M", 0), ("A", 0), ("N", 0)]] {}
      = .ok [] :=
  round_trip_validates 1 2
    [[("M", 1), ("A", 0), ("N", 0)], [("M", 0), ("A", 0), ("N", 0)]] {}
    (fun n d s => n == 0 && d == 0 && s == "M")
    (by decide) (by decide) (by decide) (by decide)

/-! ## Claim C9: validator partiality on short or incomplete demand -/

/-- The error classes `demand[d][s]` can raise. -/
def lookupErrorLike (e : PyError) : Prop :=
  (∃ i, e = PyError.indexError i) ∨ (∃ k, e = PyError.keyError k)

theorem demandLookup_error_shape {demand : List (List (String × Int))}
    {d : Nat} {s : String} {e : PyError}
    (h : demandLookup demand d s = .error e) : lookupErrorLike e := by
  unfold demandLookup at h
  by_cases hd : d < demand.length
  · rw [if_pos hd] at h
    cases hl : (demand.getD d []).lookup s with
    | some v => rw [hl] at h; cases h
    | none =>
      rw [hl] at h
      cases h
      exact Or.inr ⟨s, rfl⟩
  · rw [if_neg hd] at h
    cases h
    exact Or.inl ⟨d, rfl⟩

theorem coverShifts_error_shape {schedule : List (List String)}
    {demand : List (List (String × Int))} {numNurses d : Nat} :
    ∀ {ss : List String} {e : PyError},
      coverShifts schedule demand numNurses d ss = .error e →
      lookupErrorLike e := by
  intro ss
  induction ss with
  | nil => intro e h; cases h
  | cons s t ih =>
    intro e h
    simp only [coverShifts, Bind.bind, Except.bind] at h
    cases hs : demandLookup demand d s with
    | error e1 =>
      rw [hs] at h
      cases h
      exact demandLookup_error_shape hs
    | ok v =>
      rw [hs] at h
      cases ht : coverShifts schedule demand numNurses d t with
      | error e2 =>
        rw [ht] at h
        cases h
        exact ih ht
      | ok l =>
        rw [ht] at h
        simp only [pure, Except.pure] at h
        cases h

theorem coverShifts_error_of_bad {schedule : List (List String)}
    {demand : List (List (String × Int))} {numNurses d : Nat} :
    ∀ {ss : List String},
      ((ss ≠ [] ∧ demand.length ≤ d) ∨
        (∃ s ∈ ss, (demand.getD d []).lookup s = none)) →
      ∃ e, coverShifts schedule demand numNurses d ss = .error e := by
  intro ss
  induction ss with
  | nil =>
    rintro (⟨hne, _⟩ | ⟨s, hs, _⟩)
    · exact absurd rfl hne
    · cases hs
  | cons s t ih =>
    intro hbad
    cases hs : demandLookup demand d s with
    | error e1 =>
      refine ⟨e1, ?_⟩
      simp only [coverShifts, Bind.bind, Except.bind, hs]
    | ok v =>
      have hdlt : d < demand.length := by
        by_contra hge
        unfold demandLookup at hs
        rw [if_neg hge] at hs
        cases hs
      have hsome : (demand.getD d []).lookup s = some v := by
        unfold demandLookup at hs
        rw [if_pos hdlt] at hs
        cases hl : (demand.getD d []).lookup s with
        | some u => rw [hl] at hs; cases hs; rfl
        | none => rw [hl] at hs; cases hs
      have hbad' : (t ≠ [] ∧ demand.length ≤ d) ∨
          (∃ u ∈ t, (demand.getD d []).lookup u = none) := by
        rcases hbad with ⟨_, hge⟩ | ⟨u, hu, hnone⟩
        · omega
        · rcases List.mem_cons.mp hu with rfl | hut
          · rw [hsome] at hnone; cases hnone
          · exact Or.inr ⟨u, hut, hnone⟩
      rcases ih hbad' with ⟨e2, he2⟩
      refine ⟨e2, ?_⟩
      simp only [coverShifts, Bind.bind, Except.bind, hs, he2]

theorem coverDays_error_shape {schedule : List (List String)}
    {demand : List (List (String × Int))} {numNurses : Nat}
    {shifts : List String} :
    ∀ {ds : List Nat} {e : PyError},
      coverDays schedule demand numNurses shifts ds = .error e →
      lookupErrorLike e := by
  intro ds
  induction ds with
  | nil => intro e h; cases h
  | cons d t ih =>
    intro e h
    simp only [coverDays, Bind.bind, Except.bind] at h
    cases hd : coverShifts schedule demand numNurses d shifts with
    | error e1 =>
      rw [hd] at h
      cases h
      exact coverShifts_error_shape hd
    | ok l =>
      rw [hd] at h
      cases ht : coverDays schedule demand numNurses shifts t with
      | error e2 =>
        rw [ht] at h
        cases h
        exact ih ht
      | ok l2 =>
        rw [ht] at h
        simp only [pure, Except.pure] at h
        cases h

theorem coverDays_error_of_bad {schedule : List (List String)}
    {demand : List (List (String × Int))} {numNurses : Nat}
    {shifts : List String} :
    ∀ {ds : List Nat},
      (∃ d ∈ ds, (shifts ≠ [] ∧ demand.length ≤ d) ∨
        (∃ s ∈ shifts, (demand.getD d []).lookup s = none)) →
      ∃ e, coverDays schedule demand numNurses shifts ds = .error e := by
  intro ds
  induction ds with
  | nil => rintro ⟨d, hd, _⟩; cases hd
  | cons d t ih =>
    rintro ⟨d0, hd0, hbad0⟩
    cases hd : coverShifts schedule demand numNurses d shifts with
    | error e1 =>
      refine ⟨e1, ?_⟩
      simp only [coverDays, Bind.bind, Except.bind, hd]
    | ok l =>
      have hd0t : d0 ∈ t := by
        rcases List.mem_cons.mp hd0 with rfl | h
        · exfalso
          rcases coverShifts_error_of_bad hbad0 with ⟨e1, he1⟩
          rw [hd] at he1
          cases he1
        · exact h
      rcases ih ⟨d0, hd0t, hbad0⟩ with ⟨e2, he2⟩
      refine ⟨e2, ?_⟩
      simp only [coverDays, Bind.bind, Except.bind, hd, he2]

theorem coverShifts_ok_of_wf {schedule : List (List String)}
    {demand : List (List (String × Int))} {numNurses d : Nat}
    (hd : d < demand.length) :
    ∀ {ss : List String},
      (∀ s ∈ ss, ((demand.getD d []).lookup s).isSome = true) →
      ∃ l, coverShifts schedule demand numNurses d ss = .ok l := by
  intro ss
  induction ss with
  | nil => intro _; exact ⟨[], rfl⟩
  | cons s t ih =>
    intro h
    rcases Option.isSome_iff_exists.mp (h s (List.mem_cons_self s t)) with ⟨v, hv⟩
    have hs : demandLookup demand d s = .ok v := by
      unfold demandLookup
      rw [if_pos hd, hv]
    rcases ih (fun u hu => h u (List.mem_cons_of_mem _ hu)) with ⟨l, hl⟩
    cases hx : coverShifts schedule demand numNurses d (s :: t) with
    | ok l' => exact ⟨l', rfl⟩
    | error e =>
      exfalso
      simp only [coverShifts, Bind.bind, Except.bind, hs, hl, pure,
        Except.pure] at hx
      cases hx

theorem coverDays_ok_of_wf {schedule : List (List String)}
    {demand : List (List (String × Int))} {numNurses : Nat}
    {shifts : List String} :
    ∀ {ds : List Nat},
      (∀ d ∈ ds, d < demand.length ∧
        ∀ s ∈ shifts, ((demand.getD d []).lookup s).isSome = true) →
      ∃ l, coverDays schedule demand numNurses shifts ds = .ok l := by
  intro ds
  induction ds with
  | nil => intro _; exact ⟨[], rfl⟩
  | cons d t ih =>
    intro h
    obtain ⟨hdlt, hall⟩ := h d (List.mem_cons_self d t)
    rcases @coverShifts_ok_of_wf schedule demand numNurses d hdlt shifts hall
      with ⟨l1, hl1⟩
    rcases ih (fun u hu => h u (List.mem_cons_of_mem _ hu)) with ⟨l2, hl2⟩
    cases hx : coverDays schedule demand numNurses shifts (d :: t) with
    | ok l' => exact ⟨l', rfl⟩
    | error e =>
      exfalso
      simp only [coverDays, Bind.bind, Except.bind, hl1, hl2, pure,
        Except.pure] at hx
      cases hx

/-- C9 (amended): with a non-empty configured shift set, `validate_schedule`
raises (`IndexError` or `KeyError`, from the unguarded `demand[d][s]` in the
coverage check) whenever the demand list is shorter than the schedule's day
count or some in-range `demand[d]` lacks an entry for a configured shift;
and under the precondition (demand long enough, every configured shift
present each day) it is total.  (With an empty shift set the coverage loop
body never touches `demand`, so no exception occurs — hence the non-empty
hypothesis, which the frozen claim omits.) -/
theorem validate_partial_on_bad_demand (schedule : List (List String))
    (demand : List (List (String × Int))) (cfg : RosteringConfig)
    (hS : cfg.shifts ≠ []) :
    ((demand.length < scheduleDays schedule ∨
      (∃ d, d < scheduleDays schedule ∧ d < demand.length ∧
        ∃ s ∈ cfg.shifts, (demand.getD d []).lookup s = none)) →
      ∃ e, validate_schedule schedule demand cfg = .error e ∧
        lookupErrorLike e) ∧
    ((scheduleDays schedule ≤ demand.length ∧
      ∀ d < scheduleDays schedule, ∀ s ∈ cfg.shifts,
        ((demand.getD d []).lookup s).isSome = true) →
      ∃ vs, validate_schedule schedule demand cfg = .ok vs) := by
  constructor
  · intro hbad
    have hbad' : ∃ d ∈ List.range (scheduleDays schedule),
        (cfg.shifts ≠ [] ∧ demand.length ≤ d) ∨
          (∃ s ∈ cfg.shifts, (demand.getD d []).lookup s = none) := by
      rcases hbad with hshort | ⟨d, hd, _, s, hs, hnone⟩
      · exact ⟨demand.length, List.mem_range.mpr hshort,
          Or.inl ⟨hS, le_refl _⟩⟩
      · exact ⟨d, List.mem_range.mpr hd, Or.inr ⟨s, hs, hnone⟩⟩
    rcases @coverDays_error_of_bad schedule demand schedule.length cfg.shifts
      (List.range (scheduleDays schedule)) hbad' with ⟨e, he⟩
    refine ⟨e, ?_, coverDays_error_shape he⟩
    unfold validate_schedule
    simp only [Bind.bind, Except.bind, he]
  · rintro ⟨hlong, hall⟩
    have hwf : ∀ d ∈ List.range (scheduleDays schedule), d < demand.length ∧
        ∀ s ∈ cfg.shifts, ((demand.getD d []).lookup s).isSome = true := by
      intro d hd
      rw [List.mem_range] at hd
      exact ⟨by omega, hall d hd⟩
    rcases @coverDays_ok_of_wf schedule demand schedule.length cfg.shifts
      (List.range (scheduleDays schedule)) hwf with ⟨l, hl⟩
    cases hx : validate_schedule schedule demand cfg with
    | ok vs => exact ⟨vs, rfl⟩
    | error e =>
      exfalso
      unfold validate_schedule at hx
      simp only [Bind.bind, Except.bind, hl, pure, Except.pure] at hx
      cases hx

/-- Counterexample for C9 as frozen: with an empty configured shift set the
coverage loop never dereferences `demand`, so a demand list shorter than the
day count does not raise — `validate_schedule` returns a list. -/
theorem validate_partial_counterexample :
    validate_schedule [["OFF"]] [] { shifts := [] } = .ok [] ∧
    (([] : List (List (String × Int))).length < scheduleDays [["OFF"]]) := by
  exact ⟨by decide, by decide⟩

/-- Witness for C9 (amended): a 1-nurse 1-day schedule with empty demand
raises, and with complete demand is total. -/
theorem validate_partial_witness :
    (∃ e, validate_schedule [["M"]] [] ({} : RosteringConfig) = .error e ∧
      lookupErrorLike e) ∧
    (∃ vs, validate_schedule [["M"]]
      [[("M", 1), ("A", 0), ("N", 0)]] ({} : RosteringConfig) = .ok vs) := by
  have h := validate_partial_on_bad_demand [["M"]] [] {} (by decide)
  have h2 := validate_partial_on_bad_demand [["M"]]
    [[("M", 1), ("A", 0), ("N", 0)]] {} (by decide)
  exact ⟨h.1 (Or.inl (by decide)), h2.2 ⟨by decide, by decide⟩⟩

/-! ## Claim C2: malformed demand is rejected before solving -/

/-- A canned oracle reply for instantiating solver-level theorems. -/
def oracleReply (st : CpStatus) (value : Nat → Nat → String → Bool) :
    OracleResult :=
  { status := st
    value := value
    objectiveValue := 0
    wallTime := "0.000"
    branches := 0
    conflicts := 0 }

/-- C2: if the demand list's length differs from `num_days`, or some
`demand[d]` lacks an entry for a configured shift, `solve_nurse_rostering`
raises `ValueError` — the same error for every oracle, i.e. before any model
construction or any call to the solving oracle, and distinct from an
infeasible `SolveResult`. -/
theorem malformed_demand_rejected (num_nurses num_days : Nat)
    (demand : List (List (String × Int)))
    (preferences : List ((Nat × Nat) × PrefEntry)) (config : RosteringConfig)
    (h : demand.length ≠ num_days ∨
      ∃ d < num_days, ∃ s ∈ config.shifts,
        (demand.getD d []).lookup s = none) :
    ∃ msg, ∀ oracle, solve_nurse_rostering num_nurses num_days demand
      preferences config oracle = .error (.valueError msg) := by
  by_cases hlen : demand.length ≠ num_days
  · refine ⟨"demand must have length num_days", fun oracle => ?_⟩
    unfold solve_nurse_rostering
    rw [if_pos hlen]
  · rcases h with hne | ⟨d, hd, s, hs, hnone⟩
    · exact absurd hne hlen
    · have hfm : firstMissingShift demand config.shifts num_days ≠ none := by
        intro hnone'
        rw [firstMissingShift, List.findSome?_eq_none_iff] at hnone'
        have hone := hnone' d (List.mem_range.mpr hd)
        rw [Option.map_eq_none', List.find?_eq_none] at hone
        exact (hone s hs) (by rw [hnone]; rfl)
      cases hfm' : firstMissingShift demand config.shifts num_days with
      | none => exact absurd hfm' hfm
      | some p =>
        obtain ⟨d0, s0⟩ := p
        refine ⟨"demand[" ++ toString d0 ++ "] missing shift " ++ s0,
          fun oracle => ?_⟩
        unfold solve_nurse_rostering
        rw [if_neg hlen, hfm']

/-- Witness for C2: a demand table of the wrong length is rejected with a
`ValueError`, independently of the oracle. -/
theorem malformed_demand_rejected_witness :
    ∃ msg, solve_nurse_rostering 1 1 [] [] ({} : RosteringConfig)
      (fun _ => oracleReply .infeasible (fun _ _ _ => false))
      = .error (.valueError msg) := by
  obtain ⟨msg, hmsg⟩ := malformed_demand_rejected 1 1 [] [] {}
    (Or.inl (by decide))
  exact ⟨msg, hmsg _⟩

/-! ## Claim C8: implicit precondition that "N" is a configured shift -/

/-- C8: with well-formed demand, a config whose shift tuple lacks `"N"`,
at least one nurse and at least one day, `solve_nurse_rostering` raises
`KeyError("N")` (from the unconditional `x[(n, d, "N")]` lookups in the
night-cap constraint) instead of returning a `SolveResult`, for every
oracle. -/
theorem missing_night_shift_key (num_nurses num_days : Nat)
    (demand : List (List (String × Int)))
    (preferences : List ((Nat × Nat) × PrefEntry)) (config : RosteringConfig)
    (oracle : BuiltModel → OracleResult)
    (hlen : demand.length = num_days)
    (hdem : ∀ d < num_days, ∀ s ∈ config.shifts,
      ((demand.getD d []).lookup s).isSome = true)
    (hN : "N" ∉ config.shifts) (hn : 1 ≤ num_nurses) (hd : 1 ≤ num_days) :
    solve_nurse_rostering num_nurses num_days demand preferences config
      oracle = .error (.keyError "N") := by
  unfold solve_nurse_rostering
  rw [if_neg (fun hcon => hcon hlen)]
  have hfm : firstMissingShift demand config.shifts num_days = none := by
    rw [firstMissingShift, List.findSome?_eq_none_iff]
    intro d hdm
    rw [List.mem_range] at hdm
    rw [Option.map_eq_none', List.find?_eq_none]
    intro s hs
    rcases Option.isSome_iff_exists.mp (hdem d hdm s hs) with ⟨v, hv⟩
    rw [hv]
    simp
  rw [hfm]
  dsimp only
  rw [if_pos ⟨hN, hn, hd⟩]

/-- Witness for C8 at a concrete config without a night shift. -/
theorem missing_night_shift_key_witness :
    solve_nurse_rostering 1 1 [[("M", 0)]] [] { shifts := ["M"] }
      (fun _ => oracleReply .optimal (fun _ _ _ => false))
      = .error (.keyError "N") :=
  missing_night_shift_key 1 1 [[("M", 0)]] [] { shifts := ["M"] }
    (fun _ => oracleReply .optimal (fun _ _ _ => false))
    (by decide) (by decide) (by decide) (by decide) (by decide)

/-! ## Claim C5: shape of the decoded schedule on feasible results -/

/-- Every cell of the decoded grid is a configured shift or `"OFF"`. -/
theorem decodeSchedule_cells {a : Nat → Nat → String → Bool}
    {shifts : List String} {numNurses numDays : Nat}
    {row : List String} {c : String}
    (hrow : row ∈ decodeSchedule a shifts numNurses numDays) (hc : c ∈ row) :
    c ∈ shifts ∨ c = "OFF" := by
  rcases List.mem_map.mp hrow with ⟨n, _, rfl⟩
  rcases List.mem_map.mp hc with ⟨d, _, rfl⟩
  exact decodeCell_mem_or_off a shifts n d

/-- C5: whenever `solve_nurse_rostering` returns a result with
`feasible = true`, the schedule is present, has exactly `num_nurses` rows of
exactly `num_days` cells, every cell is a configured shift or `"OFF"`, and
under the default shift set every cell is one of "M", "A", "N", "OFF". -/
theorem feasible_schedule_shape (num_nurses num_days : Nat)
    (demand : List (List (String × Int)))
    (preferences : List ((Nat × Nat) × PrefEntry)) (config : RosteringConfig)
    (oracle : BuiltModel → OracleResult) (r : SolveResult)
    (h : solve_nurse_rostering num_nurses num_days demand preferences config
      oracle = .ok r)
    (hf : r.feasible = true) :
    ∃ g, r.schedule = some g ∧ g.length = num_nurses ∧
      (∀ row ∈ g, row.length = num_days) ∧
      (∀ row ∈ g, ∀ c ∈ row, c ∈ config.shifts ∨ c = "OFF") ∧
      (config.shifts = ["M", "A", "N"] →
        ∀ row ∈ g, ∀ c ∈ row, c ∈ (["M", "A", "N", "OFF"] : List String)) := by
  unfold solve_nurse_rostering at h
  by_cases hlen : demand.length ≠ num_days
  · rw [if_pos hlen] at h; cases h
  · rw [if_neg hlen] at h
    cases hfm : firstMissingShift demand config.shifts num_days with
    | some p =>
      obtain ⟨d0, s0⟩ := p
      rw [hfm] at h
      cases h
    | none =>
      rw [hfm] at h
      dsimp only at h
      by_cases hkey : "N" ∉ config.shifts ∧ 1 ≤ num_nurses ∧ 1 ≤ num_days
      · rw [if_pos hkey] at h; cases h
      · rw [if_neg hkey] at h
        by_cases hst : ((oracle (buildModel num_nurses num_days demand config
              preferences)).status == CpStatus.optimal ||
            (oracle (buildModel num_nurses num_days demand config
              preferences)).status == CpStatus.feasible) = true
        · rw [if_pos hst] at h
          cases hval : validate_schedule
              (decodeSchedule (oracle (buildModel num_nurses num_days demand
                config preferences)).value config.shifts num_nurses num_days)
              demand config with
          | error e => rw [hval] at h; cases h
          | ok viols =>
            rw [hval] at h
            cases h
            refine ⟨_, rfl, length_decodeSchedule _ _ _ _,
              fun row hrow => row_decodeSchedule hrow,
              fun row hrow c hc => decodeSchedule_cells hrow hc, ?_⟩
            intro hdef row hrow c hc
            rcases decodeSchedule_cells hrow hc with hmem | hoff
            · rw [hdef] at hmem
              simp only [List.mem_cons, List.mem_singleton] at hmem ⊢
              tauto
            · simp [hoff]
        · rw [if_neg hst] at h
          cases h
          cases hf

/-- Witness for C5 at a concrete optimal oracle reply. -/
theorem feasible_schedule_shape_witness :
    ∃ g, (SolveResult.mk true (some [["M", "OFF"]]) (some 0)
        [("status", "OPTIMAL"), ("objective", "0"), ("wall_time_s", "0.000"),
         ("branches", "0"), ("conflicts", "0")] []).schedule = some g ∧
      g.length = 1 ∧ (∀ row ∈ g, row.length = 2) ∧
      (∀ row ∈ g, ∀ c ∈ row,
        c ∈ ({} : RosteringConfig).shifts ∨ c = "OFF") ∧
      (({} : RosteringConfig).shifts = ["M", "A", "N"] →
        ∀ row ∈ g, ∀ c ∈ row, c ∈ (["M", "A", "N", "OFF"] : List String)) :=
  feasible_schedule_shape 1 2
    [[("M", 1), ("A", 0), ("N", 0)], [("M", 0), ("A", 0), ("N", 0)]] [] {}
    (fun _ => oracleReply .optimal (fun n d s => n == 0 && d == 0 && s == "M"))
    (SolveResult.mk true (some [["M", "OFF"]]) (some 0)
      [("status", "OPTIMAL"), ("objective", "0"), ("wall_time_s", "0.000"),
       ("branches", "0"), ("conflicts", "0")] [])
    (by decide) (by decide)

/-! ## Claim C6: fields on a non-feasible oracle status -/

/-- C6: when the oracle's status is neither OPTIMAL nor FEASIBLE,
`solve_nurse_rostering` returns `feasible = false`, no schedule, no
objective value and an empty violation list. -/
theorem infeasible_result_fields (num_nurses num_days : Nat)
    (demand : List (List (String × Int)))
    (preferences : List ((Nat × Nat) × PrefEntry)) (config : RosteringConfig)
    (oracle : BuiltModel → OracleResult) (r : SolveResult)
    (h : solve_nurse_rostering num_nurses num_days demand preferences config
      oracle = .ok r)
    (hst : (oracle (buildModel num_nurses num_days demand config
        preferences)).status ≠ CpStatus.optimal ∧
      (oracle (buildModel num_nurses num_days demand config
        preferences)).status ≠ CpStatus.feasible) :
    r.feasible = false ∧ r.schedule = none ∧ r.objective_value = none ∧
      r.violations = [] := by
  unfold solve_nurse_rostering at h
  by_cases hlen : demand.length ≠ num_days
  · rw [if_pos hlen] at h; cases h
  · rw [if_neg hlen] at h
    cases hfm : firstMissingShift demand config.shifts num_days with
    | some p =>
      obtain ⟨d0, s0⟩ := p
      rw [hfm] at h
      cases h
    | none =>
      rw [hfm] at h
      dsimp only at h
      by_cases hkey : "N" ∉ config.shifts ∧ 1 ≤ num_nurses ∧ 1 ≤ num_days
      · rw [if_pos hkey] at h; cases h
      · rw [if_neg hkey] at h
        have hfeas : ((oracle (buildModel num_nurses num_days demand config
              preferences)).status == CpStatus.optimal ||
            (oracle (buildModel num_nurses num_days demand config
              preferences)).status == CpStatus.feasible) = false := by
          cases hcs : (oracle (buildModel num_nurses num_days demand config
              preferences)).status with
          | optimal => exact absurd hcs hst.1
          | feasible => exact absurd hcs hst.2
          | infeasible => rfl
          | unknown => rfl
          | modelInvalid => rfl
        rw [hfeas] at h
        simp only [Bool.false_eq_true, if_false, ite_false] at h
        cases h
        exact ⟨rfl, rfl, rfl, rfl⟩

/-- Witness for C6 at a concrete INFEASIBLE oracle reply. -/
theorem infeasible_result_fields_witness :
    (SolveResult.mk false none none
        [("status", "INFEASIBLE"), ("objective", "NA"),
         ("wall_time_s", "0.000"), ("branches", "0"),
         ("conflicts", "0")] []).feasible = false ∧
    (SolveResult.mk false none none
        [("status", "INFEASIBLE"), ("objective", "NA"),
         ("wall_time_s", "0.000"), ("branches", "0"),
         ("conflicts", "0")] []).schedule = none ∧
    (SolveResult.mk false none none
        [("status", "INFEASIBLE"), ("objective", "NA"),
         ("wall_time_s", "0.000"), ("branches", "0"),
         ("conflicts", "0")] []).objective_value = none ∧
    (SolveResult.mk false none none
        [("status", "INFEASIBLE"), ("objective", "NA"),
         ("wall_time_s", "0.000"), ("branches", "0"),
         ("conflicts", "0")] []).violations = [] :=
  infeasible_result_fields 1 1 [[("M", 0), ("A", 0), ("N", 0)]] [] {}
    (fun _ => oracleReply .infeasible (fun _ _ _ => false))
    (SolveResult.mk false none none
      [("status", "INFEASIBLE"), ("objective", "NA"), ("wall_time_s", "0.000"),
       ("branches", "0"), ("conflicts", "0")] [])
    (by decide) (by decide)

/-! ## Claim C7: unrecognized preference shapes -/

/-- C7 (amended): a preference entry whose `type` is neither "prefer" nor
"avoid", or whose `shift` is neither a configured shift nor "OFF", causes no
error and contributes no penalty term to the objective: the penalty-term
list of the built model is the same as if the entry were absent.  When the
`shift` value is invalid the built model is entirely unchanged; but when the
`shift` is valid and only the `type` is unrecognized, the source still
creates the `pref_pen_n{n}_d{d}` variable before inspecting `type`, so the
built model differs by that orphan (unconstrained, objective-irrelevant)
variable. -/
theorem unrecognized_pref_ignored (num_nurses num_days : Nat)
    (demand : List (List (String × Int))) (config : RosteringConfig)
    (l1 l2 : List ((Nat × Nat) × PrefEntry)) (e : (Nat × Nat) × PrefEntry)
    (hbad : (e.2.type ≠ some "prefer" ∧ e.2.type ≠ some "avoid") ∨
      (∀ s, e.2.shift = some s → s ∉ config.shifts ∧ s ≠ "OFF")) :
    ((buildModel num_nurses num_days demand config (l1 ++ e :: l2)).penalties
      = (buildModel num_nurses num_days demand config (l1 ++ l2)).penalties) ∧
    ((∀ s, e.2.shift = some s → s ∉ config.shifts ∧ s ≠ "OFF") →
      buildModel num_nurses num_days demand config (l1 ++ e :: l2)
        = buildModel num_nurses num_days demand config (l1 ++ l2)) := by
  have hpen : penaltiesOfEntry num_nurses num_days config.shifts e = [] := by
    unfold penaltiesOfEntry
    by_cases hrange : e.1.1 < num_nurses ∧ e.1.2 < num_days
    · rw [if_pos hrange]
      cases hs : e.2.shift with
      | none => rfl
      | some s =>
        dsimp only
        by_cases hok : s ∈ config.shifts ∨ s = "OFF"
        · rw [if_pos hok]
          rcases hbad with ⟨hp, ha⟩ | hshift
          · cases ht : e.2.type with
            | none => rfl
            | some t =>
              dsimp only
              have hp' : ¬ (t = "prefer") := fun hteq => hp (by rw [ht, hteq])
              have ha' : ¬ (t = "avoid") := fun hteq => ha (by rw [ht, hteq])
              rw [if_neg hp', if_neg ha']
          · rcases hok with hmem | hoff
            · exact absurd hmem (hshift s hs).1
            · exact absurd hoff (hshift s hs).2
        · rw [if_neg hok]
    · rw [if_neg hrange]
  have hsplit : ∀ (prefs1 prefs2 : List ((Nat × Nat) × PrefEntry)),
      (l1 ++ e :: l2).flatMap
          (penaltiesOfEntry num_nurses num_days config.shifts)
        = (l1 ++ l2).flatMap
          (penaltiesOfEntry num_nurses num_days config.shifts) := by
    intro _ _
    rw [List.flatMap_append, List.flatMap_append, List.flatMap_cons, hpen,
      List.nil_append]
  constructor
  · show (l1 ++ e :: l2).flatMap _ = (l1 ++ l2).flatMap _
    exact hsplit l1 l2
  · intro hshift
    have hvars : penVarsOfEntry num_nurses num_days config.shifts e = [] := by
      unfold penVarsOfEntry
      by_cases hrange : e.1.1 < num_nurses ∧ e.1.2 < num_days
      · rw [if_pos hrange]
        cases hs : e.2.shift with
        | none => rfl
        | some s =>
          dsimp only
          rw [if_neg]
          rintro (hmem | hoff)
          · exact (hshift s hs).1 hmem
          · exact (hshift s hs).2 hoff
      · rw [if_neg hrange]
    unfold buildModel
    simp only [BuiltModel.mk.injEq, true_and]
    constructor
    · rw [List.flatMap_append, List.flatMap_append, List.flatMap_cons, hvars,
        List.nil_append]
    · exact hsplit l1 l2

/-- Counterexample for C7 as frozen: an entry with a recognized shift but
unrecognized type "like" leaves the penalty list unchanged, yet the built
model is NOT identical to the model without the entry — an orphan penalty
variable for (nurse 0, day 0) is still created. -/
theorem unrecognized_pref_counterexample :
    ((buildModel 1 1 [] {}
        [((0, 0), { type := some "like", shift := some "M" })]).penalties
      = (buildModel 1 1 [] {} []).penalties) ∧
    buildModel 1 1 [] {}
        [((0, 0), { type := some "like", shift := some "M" })]
      ≠ buildModel 1 1 [] {} [] := by
  exact ⟨by decide, by decide⟩

/-- Witness for C7 (amended): applying the theorem to the "like"/"M" entry
shows the penalty list is unchanged. -/
theorem unrecognized_pref_ignored_witness :
    (buildModel 1 1 [] {}
        ([] ++ ((0, 0),
          ({ type := some "like", shift := some "M" } : PrefEntry)) :: [])).penalties
      = (buildModel 1 1 [] {} ([] ++ [])).penalties :=
  (unrecognized_pref_ignored 1 1 [] {} [] []
    ((0, 0), { type := some "like", shift := some "M" })
    (Or.inl (by decide))).1
